import Mathlib

/-!
# Verification of the personal-accountant CSV import / money / recurrence core

This file is a shallow embedding, in Lean 4, of the algorithmic core of a
personal-finance web application:

* `app/money.py` — the money text parser (`euros_to_cents`) and formatter
  (`cents_to_euros_str`), modelled down to the behaviour of Python's
  `decimal.Decimal` with its default context (precision 28, `ROUND_HALF_EVEN`
  for arithmetic), including the special values NaN/Infinity and the
  `InvalidOperation` conditions of `quantize`;
* `app/routes/budgets.py` and `app/routes/transactions.py` — the CSV row
  normalizer and validator (`_parse_csv`), the duplicate-detection signatures,
  the in-memory import-batch store, and the keep/replace merge applier;
* `app/validators.py` — `validate_budget`;
* `app/routes/dashboard.py` — `_budget_planned_amount_for_month`, the
  recurrence projection used by the dashboard.

Python strings are modelled as Lean `String`s restricted to their ASCII
behaviour (`str.strip` / `str.lower` / `str.upper` act on ASCII whitespace and
letters; all inputs exercised by the application are ASCII).  Python `date`
objects are modelled by a year/month/day structure together with the proleptic
Gregorian ordinal (`date.toordinal`), which also determines `date.weekday()`
and the order of dates.  Python `int` is modelled by `Int`, lists by `List`,
dicts by association lists with first-key-wins lookup and in-place overwrite
on insert.
-/

/-! ## Python string primitives (ASCII fragment) -/

/-- ASCII whitespace, as recognised by `str.strip()` on ASCII input. -/
def isPySpace (c : Char) : Bool :=
  c = ' ' || c = '\t' || c = '\n' || c = '\x0d' || c = '\x0b' || c = '\x0c'

/-- ASCII decimal digit (`'0' ≤ c ≤ '9'`, i.e. code points 48–57). -/
def isPyDigit (c : Char) : Bool := 48 ≤ c.toNat && c.toNat ≤ 57

/-- `str.lower()` on an ASCII character (`'A'..'Z'` are code points 65–90). -/
def pyLowerChar (c : Char) : Char :=
  if 65 ≤ c.toNat ∧ c.toNat ≤ 90 then Char.ofNat (c.toNat + 32) else c

/-- `str.upper()` on an ASCII character (`'a'..'z'` are code points 97–122). -/
def pyUpperChar (c : Char) : Char :=
  if 97 ≤ c.toNat ∧ c.toNat ≤ 122 then Char.ofNat (c.toNat - 32) else c

/-- `str.strip()` on a character list. -/
def pyStripList (cs : List Char) : List Char :=
  ((cs.dropWhile isPySpace).reverse.dropWhile isPySpace).reverse

/-- `value.strip()`. -/
def pyStrip (s : String) : String := ⟨pyStripList s.data⟩

/-- `value.lower()`. -/
def pyLower (s : String) : String := ⟨s.data.map pyLowerChar⟩

/-- `value.upper()`. -/
def pyUpper (s : String) : String := ⟨s.data.map pyUpperChar⟩

/-- `value.replace(",", ".")` (single-character replacement is a map). -/
def pyCommaToDot (s : String) : String :=
  ⟨s.data.map (fun c => if c = ',' then '.' else c)⟩

/-! ## Decimal digit strings -/

/-- Numeric value of an ASCII digit character. -/
def digitVal (c : Char) : Nat := c.toNat - 48

/-- Value of a big-endian ASCII digit string (how `Decimal`/`int` read digits). -/
def digitsVal (cs : List Char) : Nat := cs.foldl (fun a c => 10 * a + digitVal c) 0

/-- Little-endian base-10 digits of `n`, with explicit fuel (structural, so the
kernel can evaluate it); `digitsRev n n` is the digit list of `n`. -/
def digitsRev : Nat → Nat → List Nat
  | 0, _ => []
  | f + 1, n => if n = 0 then [] else n % 10 :: digitsRev f (n / 10)

/-- Horner value of a little-endian digit list. -/
def ofDigits10 (l : List Nat) : Nat := l.foldr (fun d r => d + 10 * r) 0

/-- Number of decimal digits of a coefficient (0 for 0), i.e. the length of its
digit expansion. -/
def numDigits (n : Nat) : Nat := (digitsRev n n).length

/-- Big-endian decimal rendering of `n`, as Python's `str` renders an `int`. -/
def natRepr (n : Nat) : List Char :=
  if n = 0 then ['0'] else ((digitsRev n n).reverse.map Nat.digitChar)

/-! ## The `decimal.Decimal` model

A finite `Decimal` is a sign, an integer coefficient and an exponent; the
special values are the two infinities and NaN.  The constructor parses the
standard decimal grammar exactly (sign, digits with optional fractional part,
optional exponent, `Infinity`/`NaN` forms, case-insensitive, underscores
removed as CPython's `_pydecimal` does).  Arithmetic operations round the
result coefficient to the context precision of 28 significant digits with
`ROUND_HALF_EVEN`; `quantize` raises `InvalidOperation` when the result
coefficient would need more than 28 digits. -/

structure DecFinite where
  neg : Bool
  m : Nat
  e : Int
  deriving DecidableEq

/-- `10 ^ n` over ℚ, by structural recursion (kernel-evaluable). -/
def pow10Q : Nat → ℚ
  | 0 => 1
  | n + 1 => 10 * pow10Q n

/-- `10 ^ e` over ℚ for an integer exponent (kernel-evaluable; equal to
`(10 : ℚ) ^ e`, see `zpow10_eq`). -/
def zpow10 : Int → ℚ
  | .ofNat n => pow10Q n
  | .negSucc n => (pow10Q (n + 1))⁻¹

/-- Exact rational value of a finite decimal. -/
def DecFinite.val (d : DecFinite) : ℚ :=
  (if d.neg then -1 else 1) * (d.m : ℚ) * zpow10 d.e

inductive PyDecimal where
  | fin (d : DecFinite)
  | inf (neg : Bool)
  | nan
  deriving DecidableEq

/-- Consume one optional leading sign, returning `(isNegative, rest)`. -/
def stripSign (cs : List Char) : Bool × List Char :=
  match cs with
  | [] => (false, [])
  | c :: rest =>
    if c = '-' then (true, rest) else if c = '+' then (false, rest) else (false, c :: rest)

/-- Parse the optional exponent suffix of a decimal literal: either nothing, or
`e`/`E`, an optional sign and a nonempty run of digits ending the string. -/
def parseExpPart : List Char → Option Int
  | [] => some 0
  | c :: cs =>
    if c = 'e' ∨ c = 'E' then
      let (sgn, cs') := stripSign cs
      let ds := cs'.takeWhile isPyDigit
      if ds = [] ∨ cs'.dropWhile isPyDigit ≠ [] then none
      else some (if sgn then -(digitsVal ds : Int) else (digitsVal ds : Int))
    else none

/-- The `Decimal(str)` constructor on ASCII input: strips whitespace, drops
underscores (as `_pydecimal` does for PEP 515 literals), then parses the
decimal grammar.  Returns `none` where the constructor raises
`InvalidOperation` (a conversion-syntax error). -/
def parseDecimal (s : String) : Option PyDecimal :=
  let cs0 := (pyStripList s.data).filter (fun c => c ≠ '_')
  let (sgn, cs) := stripSign cs0
  let low := cs.map pyLowerChar
  if low = "inf".data ∨ low = "infinity".data then
    some (.inf sgn)
  else if (low.take 3 = "nan".data ∧ (low.drop 3).all isPyDigit) ∨
          (low.take 4 = "snan".data ∧ (low.drop 4).all isPyDigit) then
    some .nan
  else
    let ip := cs.takeWhile isPyDigit
    let r1 := cs.dropWhile isPyDigit
    match r1 with
    | '.' :: r2 =>
      let fp := r2.takeWhile isPyDigit
      let r3 := r2.dropWhile isPyDigit
      if ip = [] ∧ fp = [] then none
      else
        match parseExpPart r3 with
        | none => none
        | some ex => some (.fin ⟨sgn, digitsVal (ip ++ fp), ex - fp.length⟩)
    | _ =>
      if ip = [] then none
      else
        match parseExpPart r1 with
        | none => none
        | some ex => some (.fin ⟨sgn, digitsVal ip, ex⟩)

/-- Division rounded half-to-even (`ROUND_HALF_EVEN`), for `b > 0`. -/
def halfEvenDiv (a b : Nat) : Nat :=
  let q := a / b
  let r := a % b
  if 2 * r < b then q else if b < 2 * r then q + 1 else if q % 2 = 0 then q else q + 1

/-- Round a finite decimal to the context precision of 28 significant digits
with `ROUND_HALF_EVEN` (what every arithmetic operation of the default context
does to its exact result).  If rounding carries into a 29th digit the
coefficient is re-normalised by dropping the trailing zero. -/
def decRound28 (d : DecFinite) : DecFinite :=
  let n := numDigits d.m
  if n ≤ 28 then d
  else
    let k := n - 28
    let q := halfEvenDiv d.m (10 ^ k)
    if q = 10 ^ 28 then ⟨d.neg, 10 ^ 27, d.e + k + 1⟩ else ⟨d.neg, q, d.e + k⟩

/-- `d * Decimal(100)`: the exact product (coefficient times 100), rounded to
the context precision. -/
def decMul100 (d : DecFinite) : DecFinite := decRound28 ⟨d.neg, d.m * 100, d.e⟩

/-- `ROUND_HALF_UP` (round half away from zero) to an integer. -/
def halfUpAway (q : ℚ) : Int := if q < 0 then -⌊-q + 1 / 2⌋ else ⌊q + 1 / 2⌋

/-- Round half-to-even to an integer (used by `quantize` under the default
context rounding). -/
def halfEvenInt (q : ℚ) : Int :=
  if q - ⌊q⌋ < 1 / 2 then ⌊q⌋
  else if (1 : ℚ) / 2 < q - ⌊q⌋ then ⌊q⌋ + 1
  else if ⌊q⌋ % 2 = 0 then ⌊q⌋ else ⌊q⌋ + 1

/-- Magnitude `|m·10^e|` of a finite decimal rounded half away from zero to an
integer (the `ROUND_HALF_UP` rounding of `quantize`, computed on the
representation; `halfUpAway_val_eq` identifies it with rounding the rational
value). -/
def decHalfUpMag (d : DecFinite) : Nat :=
  match d.e with
  | .ofNat k => d.m * 10 ^ k
  | .negSucc k =>
    d.m / 10 ^ (k + 1) + (if 10 ^ (k + 1) ≤ 2 * (d.m % 10 ^ (k + 1)) then 1 else 0)

/-- `x.quantize(Decimal("1"), rounding=ROUND_HALF_UP)` on a finite value:
rounds to an integer (half away from zero), raising `InvalidOperation`
(modelled as `.error ()`) when the result coefficient would exceed the
28-digit precision. -/
def decQuantizeIntHalfUp (d : DecFinite) : Except Unit Int :=
  let c : Int := if d.neg then -(decHalfUpMag d : Int) else (decHalfUpMag d : Int)
  if 10 ^ 28 ≤ decHalfUpMag d then .error () else .ok c

/-- Result of `euros_to_cents`: a value, a raised `MoneyParseError`, or an
uncaught decimal exception (`InvalidOperation`/`Overflow`) escaping the
function. -/
inductive MoneyResult where
  | ok (cents : Int)
  | moneyError (msg : String)
  | uncaughtInvalidOp
  deriving DecidableEq

/-- `euros_to_cents` from `app/money.py`:

```python
def euros_to_cents(value: str) -> int:
    if value is None:
        raise MoneyParseError("Amount is required.")
    s = value.strip().replace(",", ".")
    try:
        d = Decimal(s)
    except InvalidOperation:
        raise MoneyParseError("Amount must be a number (e.g., 12.99).")
    if d < 0:
        raise MoneyParseError("Amount must be >= 0.")
    cents = (d * 100).quantize(Decimal("1"), rounding=ROUND_HALF_UP)
    return int(cents)
```

Comparing NaN with `<` raises `InvalidOperation` outside the `try`, and so
does `quantize` on `+Infinity` or on a value whose integer part needs more
than 28 digits; those escape the function uncaught. `-Infinity < 0` is true,
so `-Infinity` is reported as a negative amount. -/
def euros_to_cents (value : Option String) : MoneyResult :=
  match value with
  | none => .moneyError "Amount is required."
  | some v =>
    let s := pyCommaToDot (pyStrip v)
    match parseDecimal s with
    | none => .moneyError "Amount must be a number (e.g., 12.99)."
    | some .nan => .uncaughtInvalidOp
    | some (.inf negative) =>
      if negative then .moneyError "Amount must be >= 0." else .uncaughtInvalidOp
    | some (.fin d) =>
      -- `d < 0` at representation level: a finite decimal is negative exactly
      -- when its sign bit is set and its coefficient is nonzero (`val_neg_iff`).
      if d.neg = true ∧ d.m ≠ 0 then .moneyError "Amount must be >= 0."
      else
        match decQuantizeIntHalfUp (decMul100 d) with
        | .error _ => .uncaughtInvalidOp
        | .ok c => .ok c

/-- Two-digit zero-padded rendering of `r < 100` (the fractional cents). -/
def twoDigits (r : Nat) : List Char := [Nat.digitChar (r / 10), Nat.digitChar (r % 10)]

/-- `str()` of a finite `Decimal` with exponent `-2` (the only shape
`cents_to_euros_str` prints): the coefficient's digits with a decimal point
before the last two, zero-padded, with a sign for negative values. -/
def decStrExpNeg2 (neg : Bool) (m : Nat) : String :=
  ⟨(if neg then ['-'] else []) ++ natRepr (m / 100) ++ '.' :: twoDigits (m % 100)⟩

/-- `cents_to_euros_str` from `app/money.py`:

```python
def cents_to_euros_str(cents: int) -> str:
    d = (Decimal(cents) / Decimal(100)).quantize(Decimal("0.01"))
    return f"{d}"
```

`Decimal(cents) / Decimal(100)` is modelled by the exact rational
`cents / 100`: the context rounds the quotient to 28 significant digits, but
for `|cents| < 10^28` the quotient is exact, and for larger `cents` the
subsequent `quantize(Decimal("0.01"))` (default `ROUND_HALF_EVEN`) raises
`InvalidOperation` — its result coefficient `cents` would exceed the 28-digit
precision — whether or not the quotient was rounded, so the end-to-end
behaviour agrees for every input.  `.error ()` models the raised
`InvalidOperation`. -/
def cents_to_euros_str (cents : Int) : Except Unit String :=
  let c : Int := halfEvenInt ((cents : ℚ) / 100 * 100)
  if (10 : Int) ^ 28 ≤ |c| then .error ()
  else .ok (decStrExpNeg2 (decide (c < 0)) c.natAbs)

instance instDecEqExcept {ε α : Type} [DecidableEq ε] [DecidableEq α] :
    DecidableEq (Except ε α) := fun a b =>
  match a, b with
  | .error e, .error f =>
    if h : e = f then isTrue (by rw [h]) else isFalse (by simp [h])
  | .ok x, .ok y =>
    if h : x = y then isTrue (by rw [h]) else isFalse (by simp [h])
  | .error _, .ok _ => isFalse (by simp)
  | .ok _, .error _ => isFalse (by simp)

/-! ## Python `datetime.date`

Dates are year/month/day triples; `toOrd` is `date.toordinal()` (proleptic
Gregorian, 0001-01-01 = 1), which determines `date.weekday()` and, on valid
dates, the chronological order Python uses to compare `date` objects. -/

structure PyDate where
  year : Nat
  month : Nat
  day : Nat
  deriving DecidableEq

def isLeapYear (y : Nat) : Bool := y % 4 = 0 && (y % 100 ≠ 0 || y % 400 = 0)

def daysInMonth (y m : Nat) : Nat :=
  if m = 2 then (if isLeapYear y then 29 else 28)
  else if m = 4 ∨ m = 6 ∨ m = 9 ∨ m = 11 then 30
  else 31

def daysBeforeYear (y : Nat) : Nat :=
  let n := y - 1
  365 * n + n / 4 - n / 100 + n / 400

def daysBeforeMonth (y m : Nat) : Nat :=
  ((List.range (m - 1)).map (fun i => daysInMonth y (i + 1))).sum

/-- `date.toordinal()`. -/
def PyDate.toOrd (d : PyDate) : Nat :=
  daysBeforeYear d.year + daysBeforeMonth d.year d.month + d.day

/-- `date.weekday()`: 0 = Monday … 6 = Sunday (ordinal 1, 0001-01-01, is a
Monday). -/
def PyDate.pyWeekday (d : PyDate) : Nat := (d.toOrd + 6) % 7

/-- `date.fromisoformat` (the strict `YYYY-MM-DD` grammar of Python ≤ 3.10):
four digits, dash, two digits, dash, two digits, a valid calendar date with
year 1–9999.  `none` where Python raises `ValueError`. -/
def isoParse (s : String) : Option PyDate :=
  match s.data with
  | [y1, y2, y3, y4, h1, m1, m2, h2, d1, d2] =>
    if h1 = '-' ∧ h2 = '-' ∧
        isPyDigit y1 ∧ isPyDigit y2 ∧ isPyDigit y3 ∧ isPyDigit y4 ∧
        isPyDigit m1 ∧ isPyDigit m2 ∧ isPyDigit d1 ∧ isPyDigit d2 then
      let y := digitsVal [y1, y2, y3, y4]
      let mo := digitsVal [m1, m2]
      let dy := digitsVal [d1, d2]
      if 1 ≤ y ∧ 1 ≤ mo ∧ mo ≤ 12 ∧ 1 ≤ dy ∧ dy ≤ daysInMonth y mo then
        some ⟨y, mo, dy⟩
      else none
    else none
  | _ => none

/-! ## Domain enums (`app/domain.py`)

`BudgetType` doubles as the transaction type: `app/domain.py` defines no
`TransactionType` class even though `transactions.py` imports one, and
`models.py` declares `Transaction.type : BudgetType` ("Reuse BudgetType
enum"), so both are the same income/expense enumeration here. -/

inductive BudgetType where
  | income
  | expense
  deriving DecidableEq

/-- `.value` of the enum member. -/
def BudgetType.val : BudgetType → String
  | .income => "income"
  | .expense => "expense"

inductive RepeatUnit where
  | weekly
  | monthly
  | yearly
  deriving DecidableEq

/-- `.value` of the enum member. -/
def RepeatUnit.val : RepeatUnit → String
  | .weekly => "weekly"
  | .monthly => "monthly"
  | .yearly => "yearly"

/-! ## CSV row maps

`csv.DictReader` yields one dict per data row: header fields map to string
values (`None` when the row is short of fields), and fields beyond the header
are collected in a list under the `None` key (`restkey`).  Dicts are
association lists with first-key lookup and overwrite-on-insert. -/

inductive CsvVal where
  | str (v : Option String)
  | lst (vs : List String)
  deriving DecidableEq

abbrev RawRow := List (Option String × CsvVal)

abbrev RowMap := List (String × String)

def dictLookup {α : Type} (m : List (String × α)) (k : String) : Option α :=
  match m with
  | [] => none
  | (k', v) :: rest => if k' = k then some v else dictLookup rest k

def dictInsert {α : Type} (m : List (String × α)) (k : String) (v : α) : List (String × α) :=
  match m with
  | [] => [(k, v)]
  | (k', v') :: rest => if k' = k then (k, v) :: rest else (k', v') :: dictInsert rest k v

def dictRemove {α : Type} (m : List (String × α)) (k : String) : List (String × α) :=
  m.filter (fun kv => kv.1 ≠ k)

/-- `row.get(k, "")` / `(row.get(k) or "")` on a normalized row map (whose
values are strings, so `or ""` only replaces a missing key). -/
def rowGet (row : RowMap) (k : String) : String := (dictLookup row k).getD ""

/-- `(k or "").strip().lower()` on a raw field name. -/
def normKey (k : Option String) : String := pyLower (pyStrip (k.getD ""))

/-- Budget importer value normalization: list values (extra fields) are
joined with spaces, `None` becomes `""`, everything is stripped. -/
def normValB : CsvVal → String
  | .str v => pyStrip (v.getD "")
  | .lst vs => pyStrip (String.intercalate " " vs)

/-- Budget importer row normalization (`budgets._parse_csv`). -/
def normRowB (raw : RawRow) : RowMap :=
  raw.foldl (fun row kv => dictInsert row (normKey kv.1) (normValB kv.2)) []

/-- Transactions importer value normalization: `(v or "").strip()` handles
string values and the empty extras list (falsy), but a nonempty extras list
reaches `.strip()` on a `list` and raises `AttributeError`, modelled as
`.error ()`. -/
def normValT : CsvVal → Except Unit String
  | .str v => .ok (pyStrip (v.getD ""))
  | .lst vs => if vs = [] then .ok "" else .error ()

/-- Transactions importer row normalization (`transactions._parse_csv` line
235); the `AttributeError` propagates out of the whole parse. -/
def normRowT (raw : RawRow) : Except Unit RowMap :=
  raw.foldlM (fun row kv =>
    match normValT kv.2 with
    | .error _ => .error ()
    | .ok v => .ok (dictInsert row (normKey kv.1) v)) []

/-- Python `int(str)` (ASCII fragment: strip, optional sign, nonempty digits;
PEP 515 underscore grouping not modelled).  `none` where `int()` raises
`ValueError`. -/
def pyInt (s : String) : Option Int :=
  let cs := pyStripList s.data
  let (sgn, cs') := stripSign cs
  if cs' ≠ [] ∧ cs'.all isPyDigit then
    some (if sgn then -(digitsVal cs' : Int) else (digitsVal cs' : Int))
  else none

/-- `_parse_date` (both importers): strip, empty → `None`, otherwise
`date.fromisoformat`; its `ValueError` (message `Invalid isoformat string:
...`) propagates into the surrounding row `try:` block. -/
def parse_date_field (s : String) : Except String (Option PyDate) :=
  let t := pyStrip s
  if t = "" then .ok none
  else
    match isoParse t with
    | some d => .ok (some d)
    | none => .error ("Invalid isoformat string: " ++ t)

/-! ## The budget importer's per-row validation (`budgets._parse_csv`) -/

/-- `WEEKDAY_MAP` from `budgets.py`. -/
def WEEKDAY_MAP (s : String) : Option Int :=
  if s = "mon" ∨ s = "monday" then some 0
  else if s = "tue" ∨ s = "tues" ∨ s = "tuesday" then some 1
  else if s = "wed" ∨ s = "wednesday" then some 2
  else if s = "thu" ∨ s = "thur" ∨ s = "thurs" ∨ s = "thursday" then some 3
  else if s = "fri" ∨ s = "friday" then some 4
  else if s = "sat" ∨ s = "saturday" then some 5
  else if s = "sun" ∨ s = "sunday" then some 6
  else none

/-- `REPEAT_UNIT_MAP` from `budgets.py`, fused with the `RepeatUnit(...)`
conversion that always succeeds on its values. -/
def REPEAT_UNIT_MAP (s : String) : Option RepeatUnit :=
  if s = "week" ∨ s = "weekly" then some .weekly
  else if s = "month" ∨ s = "monthly" then some .monthly
  else if s = "year" ∨ s = "yearly" then some .yearly
  else none

inductive Schedule where
  | oneTime
  | recurring
  deriving DecidableEq

/-- `SCHEDULE_MAP` from `budgets.py`. -/
def SCHEDULE_MAP (s : String) : Option Schedule :=
  if s = "" ∨ s = "one-time" ∨ s = "one_time" ∨ s = "onetime" ∨ s = "one time" then some .oneTime
  else if s = "recurring" ∨ s = "repeat" then some .recurring
  else none

/-- A validated budget row (the `parsed` dict of `budgets._parse_csv`).  The
source keeps `type` and `repeat_unit` as the enum's string value inside the
dict; the parser only ever emits valid values, so they are typed here. -/
structure ParsedBudgetRow where
  type : BudgetType
  category : String
  subcategory : Option String
  amount_cents : Int
  currency : String
  is_recurring : Bool
  one_time_date : Option PyDate
  repeat_unit : Option RepeatUnit
  repeat_interval : Option Int
  weekday : Option Int
  day_of_month : Option Int
  start_date : Option PyDate
  end_date : Option PyDate
  note : Option String
  deriving DecidableEq

/-- The shifted-note recovery of `budgets._parse_csv` (the
`for k in ("end_date", "start_date")` loop): with an empty note, the first
non-empty of `end_date`, `start_date` that does not parse as an ISO date
becomes the note and that field is cleared (`break`); an empty value is
skipped (`continue`), and a value that parses as a date lets the loop move
on to the next field. -/
def noteShift (note : String) (row : RowMap) : String × RowMap :=
  if note ≠ "" then (note, row)
  else if pyStrip (rowGet row "end_date") ≠ "" ∧
      isoParse (pyStrip (rowGet row "end_date")) = none then
    (pyStrip (rowGet row "end_date"), dictInsert row "end_date" "")
  else if pyStrip (rowGet row "start_date") ≠ "" ∧
      isoParse (pyStrip (rowGet row "start_date")) = none then
    (pyStrip (rowGet row "start_date"), dictInsert row "start_date" "")
  else (note, row)

/-- `(row.get("currency") or "EUR").strip().upper()` followed by the blank
re-default. -/
def parseCurrency (row : RowMap) : String :=
  let base := match dictLookup row "currency" with
    | none => "EUR"
    | some v => if v = "" then "EUR" else v
  let c := pyUpper (pyStrip base)
  if c = "" then "EUR" else c

/-- The weekday / day-of-month branch of the recurring case: weekly rows need
`on_weekday` from the weekday table, monthly/yearly rows need an integer
`on_day` (note: only `int(...)` is checked, no 1–31 range check). -/
def parseRecurringAnchor (u : RepeatUnit) (row : RowMap) :
    Except String (Option Int × Option Int) :=
  match u with
  | .weekly =>
    let wd_raw := pyLower (pyStrip (rowGet row "on_weekday"))
    if wd_raw = "" then .error "on_weekday is required for weekly recurring items (e.g., Mon)."
    else
      match WEEKDAY_MAP wd_raw with
      | none => .error "on_weekday must be one of Mon/Tue/Wed/Thu/Fri/Sat/Sun."
      | some w => .ok (some w, none)
  | _ =>
    let dom_raw := pyStrip (rowGet row "on_day")
    if dom_raw = "" then .error "on_day is required for monthly/yearly recurring items (1..31)."
    else
      match pyInt dom_raw with
      | none => .error "on_day must be a number (1..31)."
      | some dv => .ok (none, some dv)

/-- The body of the budget importer's per-row `try:` block
(`budgets._parse_csv`): validates and coerces one normalized row, returning
the message of the first raised error.  An uncaught decimal exception from
`euros_to_cents` is caught by the generic `except Exception` with its own
message, modelled by the tag `"InvalidOperation"`. -/
def parse_budget_row (row : RowMap) : Except String ParsedBudgetRow :=
  if pyLower (rowGet row "type") ≠ "income" ∧ pyLower (rowGet row "type") ≠ "expense" then
    .error "type must be 'income' or 'expense'."
  else if pyStrip (rowGet row "category") = "" then .error "category is required."
  else
    match euros_to_cents (some (rowGet row "amount")) with
    | .moneyError msg => .error msg
    | .uncaughtInvalidOp => .error "InvalidOperation"
    | .ok amount_cents =>
      match SCHEDULE_MAP (pyLower (pyStrip (rowGet row "schedule"))) with
      | none => .error "schedule must be 'one-time' or 'recurring' (or empty)."
      | some .oneTime =>
        match parse_date_field
            (rowGet (noteShift (pyStrip (rowGet row "note")) row).2 "date") with
        | .error e => .error e
        | .ok none => .error "date is required for one-time items (YYYY-MM-DD)."
        | .ok (some d) =>
          .ok { type := if pyLower (rowGet row "type") = "income" then .income else .expense,
                category := pyStrip (rowGet row "category"),
                subcategory :=
                  if pyStrip (rowGet row "subcategory") = "" then none
                  else some (pyStrip (rowGet row "subcategory")),
                amount_cents := amount_cents, currency := parseCurrency row,
                is_recurring := false, one_time_date := some d,
                repeat_unit := none, repeat_interval := none, weekday := none,
                day_of_month := none, start_date := none, end_date := none,
                note :=
                  if (noteShift (pyStrip (rowGet row "note")) row).1 = "" then none
                  else some (noteShift (pyStrip (rowGet row "note")) row).1 }
      | some .recurring =>
        if pyStrip (rowGet (noteShift (pyStrip (rowGet row "note")) row).2 "repeat_every")
            = "" then
          .error "repeat_every is required for recurring items."
        else
          match pyInt (pyStrip
              (rowGet (noteShift (pyStrip (rowGet row "note")) row).2 "repeat_every")) with
          | none => .error "repeat_every must be a number (e.g., 1)."
          | some repeat_interval =>
            match REPEAT_UNIT_MAP (pyLower (pyStrip
                (rowGet (noteShift (pyStrip (rowGet row "note")) row).2 "repeat_unit"))) with
            | none =>
              .error "repeat_unit must be 'week', 'month', or 'year' for recurring items."
            | some repeat_unit =>
              match parseRecurringAnchor repeat_unit
                  (noteShift (pyStrip (rowGet row "note")) row).2 with
              | .error e => .error e
              | .ok (weekday, day_of_month) =>
                match parse_date_field
                    (rowGet (noteShift (pyStrip (rowGet row "note")) row).2 "start_date") with
                | .error e => .error e
                | .ok start_date =>
                  match parse_date_field
                      (rowGet (noteShift (pyStrip (rowGet row "note")) row).2 "end_date") with
                  | .error e => .error e
                  | .ok end_date =>
                    .ok { type :=
                            if pyLower (rowGet row "type") = "income" then .income
                            else .expense,
                          category := pyStrip (rowGet row "category"),
                          subcategory :=
                            if pyStrip (rowGet row "subcategory") = "" then none
                            else some (pyStrip (rowGet row "subcategory")),
                          amount_cents := amount_cents, currency := parseCurrency row,
                          is_recurring := true, one_time_date := none,
                          repeat_unit := some repeat_unit,
                          repeat_interval := some repeat_interval,
                          weekday := weekday, day_of_month := day_of_month,
                          start_date := start_date, end_date := end_date,
                          note :=
                            if (noteShift (pyStrip (rowGet row "note")) row).1 = "" then none
                            else some (noteShift (pyStrip (rowGet row "note")) row).1 }

/-- One entry of `invalid_rows`: `{"rownum": i, "error": str(e), "raw": row}`. -/
structure InvalidRow where
  rownum : Nat
  error : String
  raw : RowMap
  deriving DecidableEq

/-- The budget importer's row loop (`for i, raw in enumerate(reader, start=2)`):
each row is normalized and validated; a success appends to `valid`, a raised
error appends exactly one `InvalidRow` and the loop continues. -/
def processRowsB : Nat → List RawRow → List ParsedBudgetRow × List InvalidRow
  | _, [] => ([], [])
  | i, raw :: rest =>
    let row := normRowB raw
    let res := processRowsB (i + 1) rest
    match parse_budget_row row with
    | .ok p => (p :: res.1, res.2)
    | .error e => (res.1, ⟨i, e, row⟩ :: res.2)

/-- `budgets._parse_csv` after the CSV reader: header fields (empty list when
the reader found no header row) and the data rows.  A missing or incomplete
header fails the whole batch with one synthetic entry at row 0. -/
def parse_csv_budget (fieldnames : List String) (rows : List RawRow) :
    List ParsedBudgetRow × List InvalidRow :=
  if fieldnames = [] then ([], [⟨0, "CSV has no header row.", []⟩])
  else
    let hs := fieldnames.map pyStrip
    let missing := (["amount", "category", "currency", "type"]).filter
      (fun r => ¬ (hs.map pyLower).contains r)
    if missing ≠ [] then
      ([], [⟨0, "Missing required columns: " ++ String.intercalate ", " missing, []⟩])
    else processRowsB 2 rows

/-! ## The transactions importer (`transactions._parse_csv`) -/

/-- A validated transaction row. -/
structure ParsedTxRow where
  date : PyDate
  type : BudgetType
  category : String
  subcategory : Option String
  description : String
  amount_cents : Int
  currency : String
  note : Option String
  deriving DecidableEq

/-- The body of the transactions importer's per-row `try:` block. -/
def parse_tx_row (row : RowMap) : Except String ParsedTxRow :=
  match parse_date_field (rowGet row "date") with
  | .error e => .error e
  | .ok none => .error "date is required (YYYY-MM-DD)."
  | .ok (some d) =>
    let tx_type := pyLower (pyStrip (rowGet row "type"))
    if tx_type ≠ "income" ∧ tx_type ≠ "expense" then .error "type must be 'income' or 'expense'."
    else
      let category := pyStrip (rowGet row "category")
      if category = "" then .error "category is required."
      else
        let subcategory :=
          if pyStrip (rowGet row "subcategory") = "" then none
          else some (pyStrip (rowGet row "subcategory"))
        let description := pyStrip (rowGet row "description")
        if description = "" then .error "description is required."
        else
          match euros_to_cents (some (rowGet row "amount")) with
          | .moneyError msg => .error msg
          | .uncaughtInvalidOp => .error "InvalidOperation"
          | .ok amount_cents =>
            let currency := parseCurrency row
            let note0 := pyStrip (rowGet row "note")
            let note := if note0 = "" then none else some note0
            .ok { date := d, type := if tx_type = "income" then .income else .expense,
                  category := category, subcategory := subcategory,
                  description := description, amount_cents := amount_cents,
                  currency := currency, note := note }

/-- The transactions importer's row loop.  Unlike the budget importer, the
normalization dict comprehension sits outside the `try:`; its
`AttributeError` on a row with extra fields aborts the whole parse
(`.error ()`). -/
def processRowsT : Nat → List RawRow → Except Unit (List ParsedTxRow × List InvalidRow)
  | _, [] => .ok ([], [])
  | i, raw :: rest =>
    match normRowT raw with
    | .error _ => .error ()
    | .ok row =>
      match processRowsT (i + 1) rest with
      | .error _ => .error ()
      | .ok res =>
        match parse_tx_row row with
        | .ok p => .ok (p :: res.1, res.2)
        | .error e => .ok (res.1, ⟨i, e, row⟩ :: res.2)

/-- `transactions._parse_csv` after the CSV reader. -/
def parse_csv_tx (fieldnames : List String) (rows : List RawRow) :
    Except Unit (List ParsedTxRow × List InvalidRow) :=
  if fieldnames = [] then .ok ([], [⟨0, "CSV has no header row.", []⟩])
  else
    let hs := fieldnames.map pyStrip
    let missing := (["amount", "category", "currency", "date", "description", "type"]).filter
      (fun r => ¬ (hs.map pyLower).contains r)
    if missing ≠ [] then
      .ok ([], [⟨0, "Missing required columns: " ++ String.intercalate ", " missing, []⟩])
    else processRowsT 2 rows

/-! ## The stored models (`app/models.py`) and `validate_budget`
(`app/validators.py`) -/

structure Budget where
  id : Nat
  user_id : Nat
  type : BudgetType
  amount_cents : Int
  currency : String
  category_id : Nat
  subcategory_id : Option Nat
  is_recurring : Bool
  repeat_unit : Option RepeatUnit
  repeat_interval : Option Int
  day_of_month : Option Int
  weekday : Option Int
  one_time_date : Option PyDate
  start_date : Option PyDate
  end_date : Option PyDate
  note : Option String
  deriving DecidableEq

/-- Python truthiness of an optional int (`None` and `0` are falsy). -/
def truthyOptInt : Option Int → Bool
  | none => false
  | some i => i ≠ 0

/-- `validate_budget` from `app/validators.py`; `.error` carries the
`ValidationError` message.  Note the one-time branch uses Python truthiness,
so zero-valued recurrence ints (`repeat_interval=0`, `weekday=0`, …) do not
count as "recurrence fields". -/
def validate_budget (b : Budget) : Except String Unit :=
  if b.is_recurring then
    if b.one_time_date ≠ none then .error "Recurring budget must not have one_time_date."
    else if b.repeat_unit = none then .error "Recurring budget requires repeat_unit."
    else if (match b.repeat_interval with | none => true | some i => i < 1) then
      .error "Recurring budget requires repeat_interval >= 1."
    else if b.repeat_unit = some .weekly then
      if (match b.weekday with | none => true | some w => ¬ (0 ≤ w ∧ w ≤ 6)) then
        .error "Weekly recurring budget requires weekday (0=Mon..6=Sun)."
      else if b.day_of_month ≠ none then
        .error "Weekly recurring budget must not have day_of_month."
      else .ok ()
    else if b.repeat_unit = some .monthly ∨ b.repeat_unit = some .yearly then
      if (match b.day_of_month with | none => true | some i => ¬ (1 ≤ i ∧ i ≤ 31)) then
        .error "Monthly/Yearly recurring budget requires day_of_month (1..31)."
      else if b.weekday ≠ none then
        .error "Monthly/Yearly recurring budget must not have weekday."
      else .ok ()
    else .ok ()
  else
    if b.one_time_date = none then .error "One-time budget requires one_time_date."
    else if (b.repeat_unit ≠ none ∨ truthyOptInt b.repeat_interval ∨
        truthyOptInt b.day_of_month ∨ truthyOptInt b.weekday ∨
        b.start_date ≠ none ∨ b.end_date ≠ none) then
      .error "One-time budget must not have recurrence fields."
    else .ok ()

/-! ## The dashboard projection (`dashboard._budget_planned_amount_for_month`) -/

/-- `_months_diff(a, b) = (b.year - a.year) * 12 + (b.month - a.month)`. -/
def months_diff (a b : PyDate) : Int :=
  ((b.year : Int) - a.year) * 12 + ((b.month : Int) - a.month)

/-- `int(getattr(b, "repeat_interval", 1) or 1)`: `None` and `0` are falsy
and default to 1; any other stored value (including negatives) is kept. -/
def budgetInterval (b : Budget) : Int :=
  match b.repeat_interval with
  | none => 1
  | some i => if i = 0 then 1 else i

/-- `date.weekday()` of a proleptic-Gregorian ordinal (ordinal 1 is a
Monday, so weekday 0). -/
def wdOfOrd (o : Nat) : Nat := (o + 6) % 7

/-- The first `while` loop of the weekly branch: advance `cur` one day at a
time while its weekday differs from `w` and `cur <= month_end`.  The fuel is
an upper bound on the iteration count, so the function equals the loop. -/
def firstWdAux : Nat → Nat → Nat → Int → Nat
  | 0, cur, _, _ => cur
  | f + 1, cur, e, w =>
    if (wdOfOrd cur : Int) ≠ w ∧ cur ≤ e then firstWdAux f (cur + 1) e w else cur

/-- The second `while` loop of the weekly branch: count steps of 7 days
while `cur <= month_end`. -/
def countBy7Aux : Nat → Nat → Nat → Nat
  | 0, _, _ => 0
  | f + 1, cur, e => if cur ≤ e then 1 + countBy7Aux f (cur + 7) e else 0

/-- Both weekly loops chained: the occurrence count of the configured
weekday the dashboard uses for `[month_start, month_end]` ordinals `s, e`. -/
def weeklyOccurrences (s e : Nat) (w : Int) : Nat :=
  countBy7Aux (e + 1 - firstWdAux (e + 2 - s) s e w) (firstWdAux (e + 2 - s) s e w) e

/-- `_budget_planned_amount_for_month` from `app/routes/dashboard.py`.
Python dates always compare by calendar order, embedded as ordinal order;
`b.amount_cents or 0` equals `b.amount_cents` because `0 or 0 == 0`; the
unknown-unit fallthrough (`repeat_unit` = `None`) returns 0. -/
def budget_planned_amount_for_month (b : Budget) (month_start month_end : PyDate) : Int :=
  if b.is_recurring = false then
    match b.one_time_date with
    | some d =>
      if month_start.toOrd ≤ d.toOrd ∧ d.toOrd ≤ month_end.toOrd then b.amount_cents else 0
    | none => 0
  else if (match b.start_date with
    | some sd => decide (month_end.toOrd < sd.toOrd)
    | none => false) then 0
  else if (match b.end_date with
    | some ed => decide (ed.toOrd < month_start.toOrd)
    | none => false) then 0
  else
    match b.repeat_unit with
    | some .monthly =>
      (match b.start_date with
       | some sd =>
         if months_diff sd month_start < 0 then 0
         else if Int.fmod (months_diff sd month_start) (budgetInterval b) ≠ 0 then 0
         else b.amount_cents
       | none => b.amount_cents)
    | some .yearly =>
      (match b.start_date with
       | some sd =>
         if sd.month ≠ month_start.month then 0
         else if ((month_start.year : Int) - sd.year) < 0 then 0
         else if Int.fmod ((month_start.year : Int) - sd.year) (budgetInterval b) ≠ 0 then 0
         else b.amount_cents
       | none => b.amount_cents)
    | some .weekly =>
      (match b.weekday with
       | none => 0
       | some w =>
         b.amount_cents *
           (if 1 < budgetInterval b then
             Int.fdiv ((weeklyOccurrences month_start.toOrd month_end.toOrd w : Int)
               + (budgetInterval b - 1)) (budgetInterval b)
           else (weeklyOccurrences month_start.toOrd month_end.toOrd w : Int)))
    | none => 0

/-! ## The import batch store and the apply endpoint
(`budgets.import_budget_upload` / `budgets.import_budget_apply`; the
transactions counterparts have the same shape) -/

structure DbCategory where
  id : Nat
  user_id : Nat
  name : String
  deriving DecidableEq

structure DbSubcategory where
  id : Nat
  user_id : Nat
  category_id : Nat
  name : String
  deriving DecidableEq

/-- The stored state touched by the importer: the user tables plus the
next autoincrement ids the database would assign. -/
structure DB where
  categories : List DbCategory
  subcategories : List DbSubcategory
  budgets : List Budget
  nextCat : Nat
  nextSub : Nat
  nextBud : Nat
  deriving DecidableEq

/-- The 13-field duplicate-detection signature tuple (`note` is excluded). -/
structure BudgetSig where
  type : BudgetType
  category : String
  subcategory : Option String
  amount_cents : Int
  currency : String
  is_recurring : Bool
  one_time_date : Option PyDate
  repeat_unit : Option RepeatUnit
  repeat_interval : Option Int
  weekday : Option Int
  day_of_month : Option Int
  start_date : Option PyDate
  end_date : Option PyDate
  deriving DecidableEq

/-- `_sig_from_row`. -/
def sig_from_row (r : ParsedBudgetRow) : BudgetSig :=
  { type := r.type,
    category := pyLower (pyStrip r.category),
    subcategory :=
      (match r.subcategory with
       | none => none
       | some sc =>
         if pyLower (pyStrip sc) = "" then none else some (pyLower (pyStrip sc))),
    amount_cents := r.amount_cents,
    currency := pyUpper r.currency,
    is_recurring := r.is_recurring,
    one_time_date := r.one_time_date,
    repeat_unit := r.repeat_unit,
    repeat_interval := r.repeat_interval,
    weekday := r.weekday,
    day_of_month := r.day_of_month,
    start_date := r.start_date,
    end_date := r.end_date }

/-- `cat_by_id.get(b.category_id, f"#{b.category_id}")`. -/
def catNameOf (db : DB) (uid cid : Nat) : String :=
  match db.categories.find? (fun c => c.user_id = uid ∧ c.id = cid) with
  | some c => c.name
  | none => String.mk ('#' :: natRepr cid)

/-- `sub_by_id.get(b.subcategory_id, (None, None))[0]` guarded by the
truthiness of `b.subcategory_id` (`None` and `0` are falsy). -/
def subNameOf (db : DB) (uid : Nat) : Option Nat → Option String
  | none => none
  | some sid =>
    if sid = 0 then none
    else match db.subcategories.find? (fun sc => sc.user_id = uid ∧ sc.id = sid) with
      | some sc => some sc.name
      | none => none

/-- `_sig_from_existing` with the name lookups of `import_budget_upload`
inlined; `sub_name.strip().lower() if sub_name else None` keeps `None` for a
missing or empty name. -/
def sig_from_existing (db : DB) (uid : Nat) (b : Budget) : BudgetSig :=
  { type := b.type,
    category := pyLower (pyStrip (catNameOf db uid b.category_id)),
    subcategory :=
      (match subNameOf db uid b.subcategory_id with
       | none => none
       | some n => if n = "" then none else some (pyLower (pyStrip n))),
    amount_cents := b.amount_cents,
    currency := pyUpper b.currency,
    is_recurring := b.is_recurring,
    one_time_date := b.one_time_date,
    repeat_unit := b.repeat_unit,
    repeat_interval := b.repeat_interval,
    weekday := b.weekday,
    day_of_month := b.day_of_month,
    start_date := b.start_date,
    end_date := b.end_date }

def sigLookup (m : List (BudgetSig × List Nat)) (k : BudgetSig) : Option (List Nat) :=
  match m with
  | [] => none
  | (k', v) :: rest => if k' = k then some v else sigLookup rest k

/-- `existing_sigs.setdefault(sig, []).append(b.id)`. -/
def sigAppend : List (BudgetSig × List Nat) → BudgetSig → Nat → List (BudgetSig × List Nat)
  | [], k, i => [(k, [i])]
  | (k', l) :: rest, k, i =>
    if k' = k then (k', l ++ [i]) :: rest else (k', l) :: sigAppend rest k i

/-- The `existing_sigs` dict of `import_budget_upload`: signatures of the
user's stored budgets, each mapping to the ids carrying it. -/
def buildExistingSigs (db : DB) (uid : Nat) : List (BudgetSig × List Nat) :=
  (db.budgets.filter (fun b => b.user_id = uid)).foldl
    (fun m b => sigAppend m (sig_from_existing db uid b) b.id) []

/-- One entry of `_IMPORT_BATCHES`. -/
structure ImportBatch where
  uid : Nat
  valid_rows : List ParsedBudgetRow
  invalid_rows : List InvalidRow
  duplicates_idx : List Nat
  existing_sigs : List (BudgetSig × List Nat)
  deriving DecidableEq

/-- `import_budget_upload` after parsing: stores the batch under a fresh id
(the session stores the same id). -/
def import_budget_upload (db : DB) (uid : Nat) (bid : String)
    (valid : List ParsedBudgetRow) (invalid : List InvalidRow)
    (store : List (String × ImportBatch)) : List (String × ImportBatch) :=
  dictInsert store bid
    { uid := uid, valid_rows := valid, invalid_rows := invalid,
      duplicates_idx := (valid.enum.filter (fun p =>
        (sigLookup (buildExistingSigs db uid) (sig_from_row p.2)).isSome)).map Prod.fst,
      existing_sigs := buildExistingSigs db uid }

/-- `ids_to_delete`: the union over the valid rows of the stored ids filed
under the row signature (list membership models the Python set). -/
def idsToDelete (batch : ImportBatch) : List Nat :=
  batch.valid_rows.foldl (fun acc r =>
    match sigLookup batch.existing_sigs (sig_from_row r) with
    | some l => acc ++ l
    | none => acc) []

/-- The delete pass of the "replace" action. -/
def deleteMatching (db : DB) (uid : Nat) (batch : ImportBatch) : DB :=
  { db with
    budgets := db.budgets.filter
      (fun b => ¬ (b.user_id = uid ∧ (idsToDelete batch).contains b.id)) }

/-- `_ensure_category`: find by exact name for this user, else create (the
stored name is stripped, the lookup name is not). -/
def ensure_category (db : DB) (uid : Nat) (name : String) : DB × Nat :=
  match db.categories.find? (fun c => c.user_id = uid ∧ c.name = name) with
  | some c => (db, c.id)
  | none =>
    ({ db with
       categories := db.categories ++ [⟨db.nextCat, uid, pyStrip name⟩],
       nextCat := db.nextCat + 1 }, db.nextCat)

/-- `_ensure_subcategory`. -/
def ensure_subcategory (db : DB) (uid cid : Nat) (name : String) : DB × Nat :=
  match db.subcategories.find? (fun sc =>
      sc.user_id = uid ∧ sc.category_id = cid ∧ sc.name = name) with
  | some sc => (db, sc.id)
  | none =>
    ({ db with
       subcategories := db.subcategories ++ [⟨db.nextSub, uid, cid, pyStrip name⟩],
       nextSub := db.nextSub + 1 }, db.nextSub)

/-- The `Budget(...)` constructor call of the insert loop. -/
def rowToBudget (r : ParsedBudgetRow) (uid bid cid : Nat) (sid : Option Nat) : Budget :=
  { id := bid, user_id := uid, type := r.type, amount_cents := r.amount_cents,
    currency := pyUpper r.currency, category_id := cid, subcategory_id := sid,
    is_recurring := r.is_recurring, repeat_unit := r.repeat_unit,
    repeat_interval := r.repeat_interval, day_of_month := r.day_of_month,
    weekday := r.weekday, one_time_date := r.one_time_date,
    start_date := r.start_date, end_date := r.end_date, note := r.note }

/-- One iteration of the insert loop: ensure the category (and subcategory
when the row has a truthy one), build the `Budget`, and add it unless
`validate_budget` raises — category creation happens either way. -/
def insertRow (db : DB) (uid : Nat) (r : ParsedBudgetRow) : DB :=
  match ensure_category db uid r.category with
  | (db1, cid) =>
    match (match r.subcategory with
      | some sc =>
        if sc = "" then (db1, (none : Option Nat))
        else (match ensure_subcategory db1 uid cid sc with
          | (db2, sid) => (db2, some sid))
      | none => (db1, (none : Option Nat))) with
    | (db2, sid) =>
      match validate_budget (rowToBudget r uid db2.nextBud cid sid) with
      | .ok _ =>
        { db2 with
          budgets := db2.budgets ++ [rowToBudget r uid db2.nextBud cid sid],
          nextBud := db2.nextBud + 1 }
      | .error _ => db2

def insertRows (db : DB) (uid : Nat) : List ParsedBudgetRow → DB
  | [] => db
  | r :: rest => insertRows (insertRow db uid r) uid rest

/-- Where `import_budget_apply` redirects. -/
inductive ApplyOutcome where
  | notFound
  | badAction
  | applied
  deriving DecidableEq

/-- `import_budget_apply`: resolve the batch (missing id, unknown id, or a
batch of another user redirect to the upload form), validate the action,
optionally run the delete pass, insert the rows, and drop the batch from
the store and the id from the session. -/
def import_budget_apply (store : List (String × ImportBatch)) (db : DB) (uid : Nat)
    (batch_id : Option String) (action : String) :
    DB × List (String × ImportBatch) × ApplyOutcome :=
  match batch_id with
  | none => (db, store, .notFound)
  | some bid =>
    if bid = "" then (db, store, .notFound)
    else
      match dictLookup store bid with
      | none => (db, store, .notFound)
      | some batch =>
        if batch.uid ≠ uid then (db, store, .notFound)
        else if action ≠ "keep" ∧ action ≠ "replace" then (db, store, .badAction)
        else
          (insertRows (if action = "replace" then deleteMatching db uid batch else db)
            uid batch.valid_rows,
           dictRemove store bid, .applied)

/-! ## Concrete rows used as test vectors -/

/-- A syntactically complete recurring budget CSV row whose `repeat_every` is
`"0"` and whose `on_day` is `"99"`. -/
def bgZeroIntervalRow : RawRow :=
  [(some "type", .str (some "expense")), (some "category", .str (some "Rent")),
   (some "amount", .str (some "1")), (some "currency", .str (some "EUR")),
   (some "schedule", .str (some "recurring")), (some "repeat_every", .str (some "0")),
   (some "repeat_unit", .str (some "month")), (some "on_day", .str (some "99"))]

/-- What the budget importer accepts `bgZeroIntervalRow` as. -/
def bgZeroIntervalParsed : ParsedBudgetRow :=
  { type := .expense, category := "Rent", subcategory := none, amount_cents := 100,
    currency := "EUR", is_recurring := true, one_time_date := none,
    repeat_unit := some .monthly, repeat_interval := some 0, weekday := none,
    day_of_month := some 99, start_date := none, end_date := none, note := none }

/-- A budget CSV row with an empty `category`. -/
def bgMissingCategoryRow : RawRow :=
  [(some "type", .str (some "expense")), (some "category", .str (some "")),
   (some "amount", .str (some "1")), (some "currency", .str (some "EUR"))]

/-- A well-formed budget CSV header. -/
def bgHeader : List String :=
  ["type", "category", "subcategory", "amount", "currency", "schedule",
   "repeat_every", "repeat_unit", "on_weekday", "on_day", "date",
   "start_date", "end_date", "note"]

/-- A well-formed transactions CSV header. -/
def txExtraFieldHeader : List String :=
  ["date", "type", "category", "amount", "currency", "description"]

/-- A transactions CSV data row with one field more than the header: the
`DictReader` collects the surplus under key `None` as a list. -/
def txExtraFieldRow : RawRow :=
  [(some "date", .str (some "2025-01-02")), (some "type", .str (some "expense")),
   (some "category", .str (some "Food")), (some "amount", .str (some "12.50")),
   (some "currency", .str (some "EUR")), (some "description", .str (some "Lunch")),
   (none, .lst ["extra"])]

/-- The empty stored state (autoincrement counters at 1). -/
def dbEmpty : DB := ⟨[], [], [], 1, 1, 1⟩

/-- A well-formed parsed recurring budget row (monthly, day 1, interval 1)
that passes `validate_budget`. -/
def bgGoodParsed : ParsedBudgetRow :=
  { type := .expense, category := "Rent", subcategory := none, amount_cents := 90000,
    currency := "EUR", is_recurring := true, one_time_date := none,
    repeat_unit := some .monthly, repeat_interval := some 1, weekday := none,
    day_of_month := some 1, start_date := none, end_date := none, note := none }

/-- State after importing `bgGoodParsed` once with "keep". -/
def dbDemo1 : DB :=
  (import_budget_apply (import_budget_upload dbEmpty 1 "u1" [bgGoodParsed] [] [])
    dbEmpty 1 (some "u1") "keep").1

/-- State after importing the same row again with "keep": a duplicate. -/
def dbDemo2 : DB :=
  (import_budget_apply (import_budget_upload dbDemo1 1 "u2" [bgGoodParsed] [] [])
    dbDemo1 1 (some "u2") "keep").1

/-- State after importing the same row once more with "replace". -/
def dbDemo3 : DB :=
  (import_budget_apply (import_budget_upload dbDemo2 1 "u3" [bgGoodParsed] [] [])
    dbDemo2 1 (some "u3") "replace").1

/-- A batch holding only the zero-interval row (which `validate_budget`
rejects at apply time). -/
def zeroBatch : ImportBatch :=
  { uid := 1, valid_rows := [bgZeroIntervalParsed], invalid_rows := [],
    duplicates_idx := [], existing_sigs := [] }

/-- A weekly Monday budget of 100 cents with interval 1. -/
def bMonWeekly : Budget :=
  { id := 2, user_id := 1, type := .expense, amount_cents := 100, currency := "EUR",
    category_id := 1, subcategory_id := none, is_recurring := true,
    repeat_unit := some .weekly, repeat_interval := some 1, day_of_month := none,
    weekday := some 0, one_time_date := none, start_date := none, end_date := none,
    note := none }

/-- The same Monday budget with interval 2 (bi-weekly). -/
def bMonBiweekly : Budget :=
  { id := 3, user_id := 1, type := .expense, amount_cents := 100, currency := "EUR",
    category_id := 1, subcategory_id := none, is_recurring := true,
    repeat_unit := some .weekly, repeat_interval := some 2, day_of_month := none,
    weekday := some 0, one_time_date := none, start_date := none, end_date := none,
    note := none }

/-- A yearly budget with no `start_date` (its `day_of_month` and interval are
set but unused by the projection). -/
def bYearlyNoStart : Budget :=
  { id := 4, user_id := 1, type := .expense, amount_cents := 2400, currency := "EUR",
    category_id := 1, subcategory_id := none, is_recurring := true,
    repeat_unit := some .yearly, repeat_interval := some 3, day_of_month := some 15,
    weekday := none, one_time_date := none, start_date := none, end_date := none,
    note := none }

/-- A well-formed stored recurring budget (monthly, day 15). -/
def exRecurringBudget : Budget :=
  { id := 1, user_id := 1, type := .expense, amount_cents := 100, currency := "EUR",
    category_id := 1, subcategory_id := none, is_recurring := true,
    repeat_unit := some .monthly, repeat_interval := some 1, day_of_month := some 15,
    weekday := none, one_time_date := none, start_date := none, end_date := none,
    note := none }

-- ===================================================================
-- ===== THEOREMS ====================================================
-- ===================================================================

/-! ### List helpers -/

theorem dropWhile_all_false {α} (p : α → Bool) (l : List α)
    (h : ∀ c ∈ l, p c = false) : l.dropWhile p = l := by
  cases l with
  | nil => rfl
  | cons c cs => simp [List.dropWhile_cons, h c (by simp)]

theorem takeWhile_all_true {α} (p : α → Bool) (l : List α)
    (h : ∀ c ∈ l, p c = true) : l.takeWhile p = l := by
  induction l with
  | nil => rfl
  | cons c cs ih =>
    simp only [List.takeWhile_cons, h c (by simp), if_true]
    rw [ih (fun x hx => h x (by simp [hx]))]

theorem dropWhile_all_true {α} (p : α → Bool) (l : List α)
    (h : ∀ c ∈ l, p c = true) : l.dropWhile p = [] := by
  induction l with
  | nil => rfl
  | cons c cs ih =>
    simp only [List.dropWhile_cons, h c (by simp), if_true]
    exact ih (fun x hx => h x (by simp [hx]))

theorem takeWhile_append_stop {α} (p : α → Bool) (a : List α) (c : α) (b : List α)
    (ha : ∀ x ∈ a, p x = true) (hc : p c = false) :
    (a ++ c :: b).takeWhile p = a ∧ (a ++ c :: b).dropWhile p = c :: b := by
  induction a with
  | nil => simp [List.takeWhile_cons, List.dropWhile_cons, hc]
  | cons x xs ih =>
    have hx : p x = true := ha x (by simp)
    have ih' := ih (fun y hy => ha y (by simp [hy]))
    simp [List.takeWhile_cons, List.dropWhile_cons, hx, ih'.1, ih'.2]

/-! ### Digit-string lemmas -/

theorem ofDigits10_digitsRev (f n : Nat) (h : n ≤ f) : ofDigits10 (digitsRev f n) = n := by
  induction f generalizing n with
  | zero => interval_cases n; simp [digitsRev, ofDigits10]
  | succ f ih =>
    rw [digitsRev]
    by_cases h0 : n = 0
    · simp [h0, ofDigits10]
    · have hlt : n / 10 < n := Nat.div_lt_self (Nat.pos_of_ne_zero h0) (by norm_num)
      have hdiv : n / 10 ≤ f := by omega
      simp only [h0, if_false, ofDigits10, List.foldr_cons]
      have := ih (n / 10) hdiv
      simp only [ofDigits10] at this
      rw [this]
      omega

theorem digitsRev_lt (f n : Nat) : ∀ d ∈ digitsRev f n, d < 10 := by
  induction f generalizing n with
  | zero => simp [digitsRev]
  | succ f ih =>
    intro d hd
    rw [digitsRev] at hd
    by_cases h0 : n = 0
    · simp [h0] at hd
    · simp only [h0, if_false, List.mem_cons] at hd
      rcases hd with h | h
      · omega
      · exact ih (n / 10) d h

theorem digitsRev_length_le_iff (f n k : Nat) (h : n ≤ f) :
    (digitsRev f n).length ≤ k ↔ n < 10 ^ k := by
  induction f generalizing n k with
  | zero =>
    interval_cases n
    simp [digitsRev, Nat.pos_pow_of_pos]
  | succ f ih =>
    rw [digitsRev]
    by_cases h0 : n = 0
    · simp [h0, Nat.pos_pow_of_pos]
    · have hlt : n / 10 < n := Nat.div_lt_self (Nat.pos_of_ne_zero h0) (by norm_num)
      have hdiv : n / 10 ≤ f := by omega
      simp only [h0, if_false, List.length_cons]
      cases k with
      | zero =>
        simp only [pow_zero]
        omega
      | succ k =>
        rw [Nat.succ_le_succ_iff, ih (n / 10) k hdiv, pow_succ]
        omega

theorem numDigits_le_iff (n k : Nat) : numDigits n ≤ k ↔ n < 10 ^ k :=
  digitsRev_length_le_iff n n k le_rfl

theorem digitVal_digitChar : ∀ d < 10, digitVal (Nat.digitChar d) = d := by decide

theorem isPyDigit_digitChar : ∀ d < 10, isPyDigit (Nat.digitChar d) = true := by decide

theorem digitsVal_foldl (b : List Char) (acc : Nat) :
    b.foldl (fun a c => 10 * a + digitVal c) acc = acc * 10 ^ b.length + digitsVal b := by
  induction b generalizing acc with
  | nil => simp [digitsVal]
  | cons c cs ih =>
    simp only [List.foldl_cons, List.length_cons, digitsVal]
    rw [ih (10 * acc + digitVal c), ih (10 * 0 + digitVal c)]
    ring

theorem digitsVal_append (a b : List Char) :
    digitsVal (a ++ b) = digitsVal a * 10 ^ b.length + digitsVal b := by
  simp only [digitsVal, List.foldl_append]
  exact digitsVal_foldl b _

theorem digitsVal_reverse_map (l : List Nat) (h : ∀ d ∈ l, d < 10) :
    digitsVal (l.reverse.map Nat.digitChar) = ofDigits10 l := by
  induction l with
  | nil => simp [digitsVal, ofDigits10]
  | cons d ds ih =>
    simp only [List.reverse_cons, List.map_append, List.map_cons, List.map_nil]
    rw [digitsVal_append]
    simp only [ofDigits10, List.foldr_cons]
    have hd : d < 10 := h d (by simp)
    have : digitsVal [Nat.digitChar d] = d := by
      simp [digitsVal, digitVal_digitChar d hd]
    rw [this, ih (fun x hx => h x (by simp [hx]))]
    simp only [ofDigits10, List.length_singleton]
    ring

theorem digitsVal_natRepr (n : Nat) : digitsVal (natRepr n) = n := by
  rw [natRepr]
  by_cases h0 : n = 0
  · simp [h0, digitsVal, digitVal]
  · simp only [h0, if_false]
    rw [digitsVal_reverse_map _ (digitsRev_lt n n), ofDigits10_digitsRev n n le_rfl]

theorem natRepr_all_digits (n : Nat) : ∀ c ∈ natRepr n, isPyDigit c = true := by
  rw [natRepr]
  by_cases h0 : n = 0
  · simp [h0]
    decide
  · simp only [h0, if_false]
    intro c hc
    simp only [List.mem_map, List.mem_reverse] at hc
    obtain ⟨d, hd, rfl⟩ := hc
    exact isPyDigit_digitChar d (digitsRev_lt n n d hd)

theorem natRepr_ne_nil (n : Nat) : natRepr n ≠ [] := by
  rw [natRepr]
  by_cases h0 : n = 0
  · simp [h0]
  · simp only [h0, if_false]
    intro hcon
    have := digitsVal_natRepr n
    rw [natRepr] at this
    simp only [h0, if_false] at this
    rw [hcon] at this
    simp [digitsVal] at this
    exact h0 this.symm

theorem twoDigits_all_digits (r : Nat) (hr : r < 100) : ∀ c ∈ twoDigits r, isPyDigit c = true := by
  intro c hc
  simp only [twoDigits, List.mem_cons, List.mem_singleton] at hc
  rcases hc with rfl | rfl | h
  · exact isPyDigit_digitChar _ (by omega)
  · exact isPyDigit_digitChar _ (Nat.mod_lt _ (by norm_num))
  · simp at h

theorem digitsVal_twoDigits (r : Nat) (h : r < 100) : digitsVal (twoDigits r) = r := by
  simp only [twoDigits, digitsVal, List.foldl_cons, List.foldl_nil]
  rw [digitVal_digitChar (r / 10) (by omega), digitVal_digitChar (r % 10) (Nat.mod_lt _ (by norm_num))]
  omega

/-! ### Character facts -/

theorem isPyDigit_toNat (c : Char) (h : isPyDigit c = true) : 48 ≤ c.toNat ∧ c.toNat ≤ 57 := by
  simpa [isPyDigit] using h

theorem digit_not_space (c : Char) (h : isPyDigit c = true) : isPySpace c = false := by
  have hb := isPyDigit_toNat c h
  by_contra hcon
  have hsp : isPySpace c = true := by revert hcon; cases isPySpace c <;> simp
  simp only [isPySpace, Bool.or_eq_true, decide_eq_true_eq] at hsp
  rcases hsp with ((((rfl | rfl) | rfl) | rfl) | rfl) | rfl <;> exact absurd h (by decide)

theorem digit_ne (c : Char) (h : isPyDigit c = true) (x : Char) (hx : ¬ (48 ≤ x.toNat ∧ x.toNat ≤ 57)) :
    c ≠ x := by
  have hb := isPyDigit_toNat c h
  intro hcon
  subst hcon
  exact hx hb

theorem pyLowerChar_digit (c : Char) (h : isPyDigit c = true) : pyLowerChar c = c := by
  have hb := isPyDigit_toNat c h
  rw [pyLowerChar, if_neg (by omega)]

theorem commaToDot_id (s : String) (h : ∀ c ∈ s.data, c ≠ ',') : pyCommaToDot s = s := by
  have key : ∀ l : List Char, (∀ c ∈ l, c ≠ ',') → l.map (fun c => if c = ',' then '.' else c) = l := by
    intro l hl
    induction l with
    | nil => rfl
    | cons c cs ih =>
      simp only [List.map_cons, if_neg (hl c (by simp)), List.cons.injEq, true_and]
      exact ih (fun x hx => hl x (by simp [hx]))
  simp [pyCommaToDot, key s.data h]

theorem pyStripList_id (l : List Char) (h : ∀ c ∈ l, isPySpace c = false) :
    pyStripList l = l := by
  rw [pyStripList, dropWhile_all_false _ _ h,
      dropWhile_all_false _ _ (fun c hc => h c (List.mem_reverse.mp hc)), List.reverse_reverse]

theorem filter_underscore_id (l : List Char) (h : ∀ c ∈ l, c ≠ '_') :
    l.filter (fun c => c ≠ '_') = l := by
  rw [List.filter_eq_self]
  intro c hc
  simpa using h c hc

theorem data_mk (l : List Char) : (String.mk l).data = l := rfl

/-- Parsing a plain `digits.digits` string (no sign, no exponent) yields the
finite decimal with the concatenated digits as coefficient and the fractional
length as negative exponent. -/
theorem parseDecimal_digit_dot (a b : List Char) (ha : a ≠ [])
    (hda : ∀ c ∈ a, isPyDigit c = true) (hdb : ∀ c ∈ b, isPyDigit c = true) :
    parseDecimal ⟨a ++ '.' :: b⟩ =
      some (.fin ⟨false, digitsVal (a ++ b), -(b.length : Int)⟩) := by
  have hall_ns : ∀ c ∈ a ++ '.' :: b, isPySpace c = false := by
    intro c hc
    rcases List.mem_append.mp hc with h | h
    · exact digit_not_space c (hda c h)
    · rcases List.mem_cons.mp h with rfl | h
      · decide
      · exact digit_not_space c (hdb c h)
  have hall_us : ∀ c ∈ a ++ '.' :: b, c ≠ '_' := by
    intro c hc
    rcases List.mem_append.mp hc with h | h
    · exact digit_ne c (hda c h) '_' (by decide)
    · rcases List.mem_cons.mp h with rfl | h
      · decide
      · exact digit_ne c (hdb c h) '_' (by decide)
  obtain ⟨ahd, atl, rfl⟩ : ∃ x xs, a = x :: xs := by
    cases a with
    | nil => exact absurd rfl ha
    | cons x xs => exact ⟨x, xs, rfl⟩
  have hhd : isPyDigit ahd = true := hda ahd (by simp)
  rw [parseDecimal]
  simp only [data_mk]
  rw [pyStripList_id _ hall_ns, filter_underscore_id _ hall_us]
  rw [List.cons_append, stripSign]
  rw [if_neg (digit_ne ahd hhd '-' (by decide)), if_neg (digit_ne ahd hhd '+' (by decide))]
  simp only [List.map_cons, pyLowerChar_digit ahd hhd]
  rw [if_neg ?hinf]
  case hinf =>
    intro hcon
    rcases hcon with hcon | hcon <;>
      exact digit_ne ahd hhd _ (by decide) (List.head_eq_of_cons_eq hcon)
  rw [if_neg ?hnan]
  case hnan =>
    intro hcon
    have hgen : ∀ (y : Char) (ys : List Char) (n : Nat),
        List.take (n + 1) (ahd :: List.map pyLowerChar (atl ++ '.' :: b)) = y :: ys → ahd = y := by
      intro y ys n hcn
      rw [List.take_succ_cons] at hcn
      exact List.head_eq_of_cons_eq hcn
    rcases hcon with ⟨hcon, -⟩ | ⟨hcon, -⟩
    · exact digit_ne ahd hhd 'n' (by decide) (hgen 'n' _ 2 hcon)
    · exact digit_ne ahd hhd 's' (by decide) (hgen 's' _ 3 hcon)
  have htk := takeWhile_append_stop isPyDigit (ahd :: atl) '.' b
    (fun x hx => hda x hx) (by decide)
  rw [← List.cons_append, htk.1, htk.2]
  simp only
  rw [takeWhile_all_true _ b hdb, dropWhile_all_true _ b hdb]
  rw [if_neg (by simp)]
  show some (PyDecimal.fin ⟨false, digitsVal ((ahd :: atl) ++ b), 0 - (b.length : Int)⟩) = _
  norm_num

/-! ### Rounding and value lemmas for the decimal model -/

theorem pow10Q_eq (n : Nat) : pow10Q n = (10 : ℚ) ^ n := by
  induction n with
  | zero => rfl
  | succ n ih => rw [pow10Q, ih, pow_succ]; ring

theorem zpow10_eq (e : Int) : zpow10 e = (10 : ℚ) ^ e := by
  cases e with
  | ofNat n => rw [zpow10, pow10Q_eq, Int.ofNat_eq_natCast, zpow_natCast]
  | negSucc n => rw [zpow10, pow10Q_eq, zpow_negSucc]

theorem val_pos_mk (m : Nat) (e : Int) : DecFinite.val ⟨false, m, e⟩ = (m : ℚ) * (10 : ℚ) ^ e := by
  simp [DecFinite.val, zpow10_eq]

theorem halfEvenInt_intCast (z : Int) : halfEvenInt (z : ℚ) = z := by
  rw [halfEvenInt]
  rw [Int.floor_intCast]
  rw [if_pos]
  rw [sub_self]
  norm_num

theorem floor_half_rat : ⌊(1 : ℚ) / 2⌋ = 0 := by
  rw [Int.floor_eq_zero_iff]
  constructor <;> norm_num

theorem halfUpAway_intCast (z : Int) : halfUpAway (z : ℚ) = z := by
  rw [halfUpAway]
  by_cases h : (z : ℚ) < 0
  · rw [if_pos h]
    rw [show (-(z : ℚ) + 1 / 2) = ((-z : Int) : ℚ) + 1 / 2 by push_cast; ring]
    rw [Int.floor_int_add, floor_half_rat]
    ring
  · rw [if_neg h]
    rw [Int.floor_int_add, floor_half_rat, add_zero]

theorem halfEvenDiv_exact (a b : Nat) (hb : 0 < b) (h : b ∣ a) : halfEvenDiv a b = a / b := by
  rw [halfEvenDiv]
  obtain ⟨q, rfl⟩ := h
  rw [Nat.mul_mod_right]
  rw [if_pos (by omega)]

theorem val_exp_neg2 (m : Nat) : DecFinite.val ⟨false, m, -2⟩ = (m : ℚ) / 100 := by
  rw [val_pos_mk]
  have h : (10 : ℚ) ^ (-2 : Int) = 1 / 100 := by
    rw [zpow_neg]
    norm_num
  rw [h]
  ring

theorem val_neg_iff (d : DecFinite) : d.val < 0 ↔ (d.neg = true ∧ d.m ≠ 0) := by
  obtain ⟨n, m, e⟩ := d
  have hz : 0 < zpow10 e := by rw [zpow10_eq]; positivity
  cases n with
  | false =>
    have hval : DecFinite.val ⟨false, m, e⟩ = (m : ℚ) * zpow10 e := by
      simp [DecFinite.val]
    rw [hval]
    constructor
    · intro h
      exfalso
      have : 0 ≤ (m : ℚ) * zpow10 e := mul_nonneg (Nat.cast_nonneg m) (le_of_lt hz)
      linarith
    · rintro ⟨hcon, -⟩
      exact absurd hcon (by simp)
  | true =>
    have hval : DecFinite.val ⟨true, m, e⟩ = -((m : ℚ) * zpow10 e) := by
      simp [DecFinite.val]
    rw [hval]
    constructor
    · intro h
      refine ⟨rfl, ?_⟩
      intro hm
      have hm2 : m = 0 := hm
      rw [hm2] at h
      simp at h
    · rintro ⟨-, hm⟩
      have h0 : (0 : ℚ) < (m : ℚ) := by exact_mod_cast Nat.pos_of_ne_zero hm
      have hpos : 0 < (m : ℚ) * zpow10 e := mul_pos h0 hz
      linarith

theorem halfUpAway_nonneg (x : ℚ) (hx : 0 ≤ x) : halfUpAway x = ⌊x + 1 / 2⌋ := by
  rw [halfUpAway, if_neg (not_lt.mpr hx)]

theorem halfUpAway_neg_of_nonneg (x : ℚ) (hx : 0 ≤ x) : halfUpAway (-x) = -⌊x + 1 / 2⌋ := by
  rw [halfUpAway]
  by_cases h : -x < 0
  · rw [if_pos h, neg_neg]
  · have hx0 : x = 0 := le_antisymm (by linarith [not_lt.mp h]) hx
    rw [hx0]
    norm_num [floor_half_rat]

theorem floor_halfup_div (m p : Nat) (hp : 0 < p) :
    ⌊(m : ℚ) / (p : ℚ) + 1 / 2⌋
      = ((m / p : Nat) : Int) + (if p ≤ 2 * (m % p) then 1 else 0) := by
  have hr : m % p < p := Nat.mod_lt _ hp
  have hpQ : (0 : ℚ) < (p : ℚ) := by exact_mod_cast hp
  have hmQ : (m : ℚ) / (p : ℚ) = ((m / p : Nat) : ℚ) + ((m % p : Nat) : ℚ) / (p : ℚ) := by
    rw [div_eq_iff (ne_of_gt hpQ), add_mul, div_mul_cancel₀ _ (ne_of_gt hpQ)]
    have hcast : ((m : Nat) : ℚ) = ((p * (m / p) + m % p : Nat) : ℚ) := by
      exact_mod_cast congrArg (fun n : Nat => (n : ℚ)) (Nat.div_add_mod m p).symm
    rw [hcast]
    push_cast
    ring
  have hrp0 : (0 : ℚ) ≤ ((m % p : Nat) : ℚ) / (p : ℚ) := by positivity
  have hrp1 : ((m % p : Nat) : ℚ) / (p : ℚ) < 1 := by
    rw [div_lt_one hpQ]
    exact_mod_cast hr
  by_cases hc : p ≤ 2 * (m % p)
  · have hge : (1 : ℚ) / 2 ≤ ((m % p : Nat) : ℚ) / (p : ℚ) := by
      rw [le_div_iff₀ hpQ]
      have h2 : (p : ℚ) ≤ 2 * ((m % p : Nat) : ℚ) := by exact_mod_cast hc
      linarith
    rw [if_pos hc, Int.floor_eq_iff]
    constructor
    · rw [hmQ]
      simp only [Int.cast_add, Int.cast_natCast, Int.cast_one]
      linarith
    · rw [hmQ]
      simp only [Int.cast_add, Int.cast_natCast, Int.cast_one]
      linarith
  · have hlt : ((m % p : Nat) : ℚ) / (p : ℚ) < 1 / 2 := by
      rw [div_lt_iff₀ hpQ]
      have h2 : 2 * ((m % p : Nat) : ℚ) < (p : ℚ) := by exact_mod_cast Nat.lt_of_not_le hc
      linarith
    rw [if_neg hc, Int.floor_eq_iff]
    constructor
    · rw [hmQ]
      simp only [Int.cast_add, Int.cast_natCast, Int.cast_zero, add_zero]
      linarith
    · rw [hmQ]
      simp only [Int.cast_add, Int.cast_natCast, Int.cast_zero, add_zero]
      linarith

/-- Rounding the rational value half away from zero computes the signed
half-up magnitude of the representation. -/
theorem halfUpAway_val_eq (d : DecFinite) :
    halfUpAway d.val = if d.neg then -(decHalfUpMag d : Int) else (decHalfUpMag d : Int) := by
  obtain ⟨n, m, e⟩ := d
  cases e with
  | ofNat k =>
    have hval : DecFinite.val ⟨n, m, .ofNat k⟩
        = (((if n then -(m * 10 ^ k : Int) else (m * 10 ^ k : Int)) : Int) : ℚ) := by
      cases n <;>
        · simp only [DecFinite.val, zpow10, pow10Q_eq, if_true, if_false, Bool.false_eq_true]
          push_cast
          ring
    rw [hval, halfUpAway_intCast, decHalfUpMag]
    cases n <;> simp
  | negSucc k =>
    have hval : DecFinite.val ⟨n, m, .negSucc k⟩
        = (if n then -((m : ℚ) / (10 ^ (k + 1) : Nat)) else ((m : ℚ) / (10 ^ (k + 1) : Nat))) := by
      cases n <;>
        · simp only [DecFinite.val, zpow10, pow10Q_eq, if_true, if_false, Bool.false_eq_true]
          push_cast
          ring
    have hp : 0 < 10 ^ (k + 1) := Nat.pos_pow_of_pos _ (by norm_num)
    have hnn : (0 : ℚ) ≤ (m : ℚ) / (10 ^ (k + 1) : Nat) := by positivity
    have hflo : ⌊(m : ℚ) / ((10 ^ (k + 1) : Nat) : ℚ) + 1 / 2⌋
        = ((m / 10 ^ (k + 1) + (if 10 ^ (k + 1) ≤ 2 * (m % 10 ^ (k + 1)) then 1 else 0) : Nat) : Int) := by
      rw [floor_halfup_div m (10 ^ (k + 1)) hp]
      split <;> push_cast <;> ring
    rw [hval, decHalfUpMag]
    cases n with
    | false =>
      simp only [Bool.false_eq_true, if_false]
      rw [halfUpAway_nonneg _ hnn, hflo]
    | true =>
      simp only [if_true]
      rw [halfUpAway_neg_of_nonneg _ hnn, hflo]

theorem abs_halfUpAway_val (d : DecFinite) : |halfUpAway d.val| = (decHalfUpMag d : Int) := by
  rw [halfUpAway_val_eq]
  cases hn : d.neg
  · simp only [Bool.false_eq_true, if_false]
    exact abs_of_nonneg (Int.natCast_nonneg _)
  · rw [if_pos rfl, abs_neg]
    exact abs_of_nonneg (Int.natCast_nonneg _)

/-- The representation-level `quantize` agrees with rounding the rational
value half away from zero, with the 28-digit overflow check on its
magnitude. -/
theorem decQuantizeIntHalfUp_val (d : DecFinite) :
    decQuantizeIntHalfUp d =
      if (10 : Int) ^ 28 ≤ |halfUpAway d.val| then .error () else .ok (halfUpAway d.val) := by
  rw [decQuantizeIntHalfUp, abs_halfUpAway_val, halfUpAway_val_eq]
  have hcond : ((10 : Int) ^ 28 ≤ ((decHalfUpMag d : Nat) : Int)) ↔ (10 ^ 28 ≤ decHalfUpMag d) := by
    constructor <;> intro hh <;> exact_mod_cast hh
  simp only [hcond]

theorem quantize_mul100 (c : Nat) (hc : c < 10 ^ 28) :
    decQuantizeIntHalfUp (decMul100 ⟨false, c, -2⟩) = .ok (c : Int) := by
  have hquant : ∀ d : DecFinite, d.val = (c : ℚ) → decQuantizeIntHalfUp d = .ok (c : Int) := by
    intro d hd
    rw [decQuantizeIntHalfUp_val, hd]
    rw [show ((c : Nat) : ℚ) = ((c : Int) : ℚ) by push_cast; rfl]
    rw [halfUpAway_intCast]
    rw [if_neg ?hb]
    case hb =>
      rw [Int.abs_natCast]
      intro hcon
      have h2 : ((10 : Nat) ^ 28 : Int) ≤ ((c : Nat) : Int) := by push_cast at hcon ⊢; exact hcon
      have := Int.ofNat_le.mp h2
      omega
  apply hquant
  rw [decMul100, decRound28]
  simp only
  by_cases h28 : numDigits (c * 100) ≤ 28
  · rw [if_pos h28, val_exp_neg2]
    push_cast
    field_simp
  · rw [if_neg h28]
    have hn30 : numDigits (c * 100) ≤ 30 := by
      rw [numDigits_le_iff]
      calc c * 100 < 10 ^ 28 * 100 := by omega
        _ = 10 ^ 30 := by norm_num
    have hk : numDigits (c * 100) - 28 = 1 ∨ numDigits (c * 100) - 28 = 2 := by omega
    have hdvd : 10 ^ (numDigits (c * 100) - 28) ∣ c * 100 := by
      rcases hk with h | h <;> rw [h]
      · exact ⟨c * 10, by ring⟩
      · exact ⟨c, by ring⟩
    have hpow : 0 < 10 ^ (numDigits (c * 100) - 28) := Nat.pos_pow_of_pos _ (by norm_num)
    rw [halfEvenDiv_exact _ _ hpow hdvd]
    have hqlt : c * 100 / 10 ^ (numDigits (c * 100) - 28) < 10 ^ 28 := by
      rw [Nat.div_lt_iff_lt_mul hpow, ← pow_add]
      exact (numDigits_le_iff (c * 100) (28 + (numDigits (c * 100) - 28))).mp (by omega)
    rw [if_neg (by omega)]
    rw [val_pos_mk]
    have hmul : c * 100 / 10 ^ (numDigits (c * 100) - 28) * 10 ^ (numDigits (c * 100) - 28)
        = c * 100 := Nat.div_mul_cancel hdvd
    have hmulQ : ((c * 100 / 10 ^ (numDigits (c * 100) - 28) : Nat) : ℚ)
        * (10 : ℚ) ^ (numDigits (c * 100) - 28) = (c : ℚ) * 100 := by
      have := congrArg (fun n : Nat => (n : ℚ)) hmul
      push_cast at this
      exact this
    rw [zpow_add₀ (by norm_num : (10 : ℚ) ≠ 0), zpow_natCast]
    rw [show (10 : ℚ) ^ (-2 : Int) = 1 / 100 by rw [zpow_neg]; norm_num]
    calc ((c * 100 / 10 ^ (numDigits (c * 100) - 28) : Nat) : ℚ)
          * (1 / 100 * (10 : ℚ) ^ (numDigits (c * 100) - 28))
        = ((c * 100 / 10 ^ (numDigits (c * 100) - 28) : Nat) : ℚ)
          * (10 : ℚ) ^ (numDigits (c * 100) - 28) * (1 / 100) := by ring
      _ = (c : ℚ) * 100 * (1 / 100) := by rw [hmulQ]
      _ = (c : ℚ) := by ring

/-- C3, counterexample: the round-trip `parse_money(format_money(c)) == c` does
not hold for every non-negative integer `c`: at `c = 10^28` cents,
`cents_to_euros_str` itself raises `decimal.InvalidOperation` (the `quantize`
result coefficient would need 29 digits, more than the context precision 28),
so no string is even produced. -/
theorem C3_counterexample : cents_to_euros_str ((10 : Int) ^ 28) = .error () := by
  rw [cents_to_euros_str]
  rw [show (((10 : Int) ^ 28 : Int) : ℚ) / 100 * 100 = (((10 : Int) ^ 28 : Int) : ℚ) by
    field_simp]
  rw [halfEvenInt_intCast]
  rw [if_pos (by rw [abs_of_nonneg (by positivity)])]

/-- C3, amended: for every non-negative integer `c < 10^28`,
`euros_to_cents (cents_to_euros_str c) = c`: formatting `c` minor units to a
2-decimal string and parsing it back returns exactly `c`.  (For `c ≥ 10^28`
the formatter raises `InvalidOperation`, see `C3_counterexample`.) -/
theorem C3_roundtrip (c : Nat) (h : c < 10 ^ 28) :
    ∃ s : String, cents_to_euros_str (c : Int) = .ok s ∧ euros_to_cents (some s) = .ok (c : Int) := by
  have hda := natRepr_all_digits (c / 100)
  have hdb := twoDigits_all_digits (c % 100) (Nat.mod_lt _ (by norm_num))
  refine ⟨⟨natRepr (c / 100) ++ '.' :: twoDigits (c % 100)⟩, ?_, ?_⟩
  · rw [cents_to_euros_str]
    rw [show (((c : Nat) : Int) : ℚ) / 100 * 100 = (((c : Nat) : Int) : ℚ) by field_simp]
    rw [halfEvenInt_intCast]
    rw [if_neg ?hbound]
    case hbound =>
      rw [Int.abs_natCast]
      intro hcon
      have h2 : ((10 : Nat) ^ 28 : Int) ≤ ((c : Nat) : Int) := by push_cast at hcon ⊢; exact hcon
      have := Int.ofNat_le.mp h2
      omega
    have h0 : ¬ (((c : Nat) : Int) < 0) := not_lt.mpr (Int.natCast_nonneg c)
    simp [decStrExpNeg2, h0]
  · have hns : ∀ x ∈ natRepr (c / 100) ++ '.' :: twoDigits (c % 100), isPySpace x = false := by
      intro x hx
      rcases List.mem_append.mp hx with hx | hx
      · exact digit_not_space x (hda x hx)
      · rcases List.mem_cons.mp hx with rfl | hx
        · decide
        · exact digit_not_space x (hdb x hx)
    have hnc : ∀ x ∈ (String.mk (natRepr (c / 100) ++ '.' :: twoDigits (c % 100))).data, x ≠ ',' := by
      intro x hx
      rw [data_mk] at hx
      rcases List.mem_append.mp hx with hx | hx
      · exact digit_ne x (hda x hx) ',' (by decide)
      · rcases List.mem_cons.mp hx with rfl | hx
        · decide
        · exact digit_ne x (hdb x hx) ',' (by decide)
    rw [euros_to_cents]
    rw [show pyStrip ⟨natRepr (c / 100) ++ '.' :: twoDigits (c % 100)⟩
        = ⟨natRepr (c / 100) ++ '.' :: twoDigits (c % 100)⟩ by
      rw [pyStrip, data_mk, pyStripList_id _ hns]]
    rw [commaToDot_id _ hnc]
    rw [parseDecimal_digit_dot _ _ (natRepr_ne_nil _) hda hdb]
    rw [digitsVal_append, digitsVal_natRepr, digitsVal_twoDigits _ (Nat.mod_lt _ (by norm_num))]
    rw [show (twoDigits (c % 100)).length = 2 from rfl]
    rw [show c / 100 * 10 ^ 2 + c % 100 = c by omega]
    rw [show (-(2 : Nat) : Int) = (-2 : Int) by norm_num]
    have hcond : ¬ ((DecFinite.mk false c (-2)).neg = true ∧ (DecFinite.mk false c (-2)).m ≠ 0) := by
      simp
    simp only [hcond, if_false, quantize_mul100 c h]

/-- C3, witness: the amended round-trip theorem instantiated at `c = 12345`
(`"123.45"`). -/
theorem C3_roundtrip_witness :
    (12345 : Nat) < 10 ^ 28 ∧
    ∃ s : String, cents_to_euros_str ((12345 : Nat) : Int) = .ok s ∧
      euros_to_cents (some s) = .ok ((12345 : Nat) : Int) :=
  ⟨by norm_num, C3_roundtrip 12345 (by norm_num)⟩

theorem decVal_mul100 (n : Bool) (m : Nat) (e : Int) :
    DecFinite.val ⟨n, m * 100, e⟩ = 100 * DecFinite.val ⟨n, m, e⟩ := by
  simp only [DecFinite.val]
  push_cast
  ring

/-- C4, counterexample: `euros_to_cents("nan")` does not raise
`MoneyParseError`: `Decimal("nan")` parses, and the comparison `d < 0` with a
NaN then raises `decimal.InvalidOperation`, which escapes the function
uncaught (the `try` only covers the constructor). -/
theorem C4_counterexample : euros_to_cents (some "nan") = .uncaughtInvalidOp := by decide

/-- C4, amended: `euros_to_cents` raises `MoneyParseError` for `None`, for the
empty string, for every string the decimal grammar rejects (non-numeric), and
for every negative parsed value (including `-Infinity`); but a string parsing
to NaN or `+Infinity` makes it raise an uncaught `decimal.InvalidOperation`
instead (and so does an accepted value whose rounded cent count needs more
than 28 digits).  On every other accepted input it returns the value rounded
to integer minor units with round-half-up at 2 decimal places,
`⌊100·v + 1/2⌋`. -/
theorem C4_money_parse :
    euros_to_cents none = .moneyError "Amount is required." ∧
    euros_to_cents (some "") = .moneyError "Amount must be a number (e.g., 12.99)." ∧
    (∀ v : String, parseDecimal (pyCommaToDot (pyStrip v)) = none →
      euros_to_cents (some v) = .moneyError "Amount must be a number (e.g., 12.99).") ∧
    (∀ v : String, ∀ d : DecFinite, parseDecimal (pyCommaToDot (pyStrip v)) = some (.fin d) →
      d.val < 0 → euros_to_cents (some v) = .moneyError "Amount must be >= 0.") ∧
    (∀ v : String, parseDecimal (pyCommaToDot (pyStrip v)) = some (.inf true) →
      euros_to_cents (some v) = .moneyError "Amount must be >= 0.") ∧
    (∀ v : String, parseDecimal (pyCommaToDot (pyStrip v)) = some .nan ∨
        parseDecimal (pyCommaToDot (pyStrip v)) = some (.inf false) →
      euros_to_cents (some v) = .uncaughtInvalidOp) ∧
    (∀ v : String, ∀ d : DecFinite, parseDecimal (pyCommaToDot (pyStrip v)) = some (.fin d) →
      d.neg = false ∨ d.m = 0 → numDigits (d.m * 100) ≤ 28 →
      decHalfUpMag (decMul100 d) < 10 ^ 28 →
      euros_to_cents (some v) = .ok ⌊100 * d.val + 1 / 2⌋) := by
  refine ⟨rfl, by decide, ?_, ?_, ?_, ?_, ?_⟩
  · intro v hv
    simp only [euros_to_cents]
    rw [hv]
  · intro v d hv hneg
    simp only [euros_to_cents]
    rw [hv]
    have hcond := (val_neg_iff d).mp hneg
    simp [hcond.1, hcond.2]
  · intro v hv
    simp only [euros_to_cents]
    rw [hv]
    rfl
  · intro v hv
    rcases hv with hv | hv
    · simp only [euros_to_cents]
      rw [hv]
    · simp only [euros_to_cents]
      rw [hv]
      rfl
  · intro v d hv h0 hdig hmag
    simp only [euros_to_cents]
    rw [hv]
    have hcond : ¬ (d.neg = true ∧ d.m ≠ 0) := by
      rintro ⟨h1, h2⟩
      rcases h0 with h0 | h0
      · rw [h0] at h1
        exact Bool.false_ne_true h1
      · exact h2 h0
    have hpos : 0 ≤ d.val := by
      by_contra hneg
      exact hcond ((val_neg_iff d).mp (not_le.mp hneg))
    have hmul : decMul100 d = ⟨d.neg, d.m * 100, d.e⟩ := by
      rw [decMul100, decRound28]
      simp only [hdig, if_pos]
    have hval : DecFinite.val ⟨d.neg, d.m * 100, d.e⟩ = 100 * d.val := by
      rw [← decVal_mul100 d.neg d.m d.e]
    have hupv : halfUpAway (DecFinite.val ⟨d.neg, d.m * 100, d.e⟩) = ⌊100 * d.val + 1 / 2⌋ := by
      rw [hval]
      exact halfUpAway_nonneg _ (mul_nonneg (by norm_num) hpos)
    have hq : decQuantizeIntHalfUp (decMul100 d) = .ok ⌊100 * d.val + 1 / 2⌋ := by
      rw [hmul, decQuantizeIntHalfUp_val, abs_halfUpAway_val, hupv]
      rw [if_neg ?hbnd]
      case hbnd =>
        rw [← hmul]
        intro hle
        have : (10 : Nat) ^ 28 ≤ decHalfUpMag (decMul100 d) := by exact_mod_cast hle
        omega
    show (if d.neg = true ∧ d.m ≠ 0 then MoneyResult.moneyError "Amount must be >= 0."
      else match decQuantizeIntHalfUp (decMul100 d) with
        | Except.error _ => MoneyResult.uncaughtInvalidOp
        | Except.ok c => MoneyResult.ok c) = MoneyResult.ok ⌊100 * d.val + 1 / 2⌋
    rw [if_neg hcond, hq]

/-- C4, witness: the amended characterization applied to the concrete input
`" 12,345 "` (whitespace trimmed, comma mapped to a point, half-up rounding:
1234.5 cents rounds to 1235). -/
theorem C4_money_parse_witness :
    euros_to_cents (some " 12,345 ") = .ok 1235 := by
  have h := C4_money_parse.2.2.2.2.2.2 " 12,345 " ⟨false, 12345, -3⟩ (by decide) (by decide)
    (by decide) (by decide)
  rw [h]
  have hval : DecFinite.val ⟨false, 12345, -3⟩ = (12345 : ℚ) / 1000 := by
    rw [val_pos_mk]
    norm_num
  rw [show (100 * DecFinite.val ⟨false, 12345, -3⟩ + 1 / 2 : ℚ) = ((1235 : Int) : ℚ) by
    rw [hval]; norm_num]
  rw [Int.floor_intCast]

/-! ### The row loops: characterization lemmas -/

theorem processB_valid_eq (rows : List RawRow) : ∀ i,
    (processRowsB i rows).1 = rows.filterMap (fun raw => (parse_budget_row (normRowB raw)).toOption) := by
  induction rows with
  | nil => intro i; rfl
  | cons raw rest ih =>
    intro i
    rw [processRowsB, List.filterMap_cons]
    cases hp : parse_budget_row (normRowB raw) with
    | ok p => simp [hp, Except.toOption, ih (i + 1)]
    | error e => simp [hp, Except.toOption, ih (i + 1)]

theorem processB_len (rows : List RawRow) : ∀ i,
    (processRowsB i rows).1.length + (processRowsB i rows).2.length = rows.length := by
  induction rows with
  | nil => intro i; rfl
  | cons raw rest ih =>
    intro i
    rw [processRowsB]
    cases hp : parse_budget_row (normRowB raw) with
    | ok p => simp only [hp, List.length_cons]; have := ih (i + 1); omega
    | error e => simp only [hp, List.length_cons]; have := ih (i + 1); omega

theorem processB_mem_invalid (rows : List RawRow) : ∀ i (entry : InvalidRow),
    entry ∈ (processRowsB i rows).2 ↔
      ∃ j, ∃ hj : j < rows.length, ∃ e,
        entry = ⟨i + j, e, normRowB (rows.get ⟨j, hj⟩)⟩ ∧
        parse_budget_row (normRowB (rows.get ⟨j, hj⟩)) = .error e := by
  induction rows with
  | nil =>
    intro i entry
    simp [processRowsB]
  | cons raw rest ih =>
    intro i entry
    rw [processRowsB]
    cases hp : parse_budget_row (normRowB raw) with
    | ok p =>
      simp only [ih (i + 1) entry]
      constructor
      · rintro ⟨j, hj, e, he, hpe⟩
        exact ⟨j + 1, by simpa using Nat.succ_lt_succ hj, e,
          by simpa [Nat.add_comm, Nat.add_assoc, Nat.add_left_comm] using he, by simpa using hpe⟩
      · rintro ⟨j, hj, e, he, hpe⟩
        cases j with
        | zero =>
          exfalso
          simp only [List.get] at hpe
          rw [hp] at hpe
          exact Except.noConfusion hpe
        | succ j =>
          exact ⟨j, by simpa using Nat.lt_of_succ_lt_succ hj, e,
            by simpa [Nat.add_comm, Nat.add_assoc, Nat.add_left_comm] using he, by simpa using hpe⟩
    | error e0 =>
      simp only [List.mem_cons, ih (i + 1) entry]
      constructor
      · rintro (rfl | ⟨j, hj, e, he, hpe⟩)
        · exact ⟨0, by simp, e0, by simp, by simpa using hp⟩
        · exact ⟨j + 1, by simpa using Nat.succ_lt_succ hj, e,
            by simpa [Nat.add_comm, Nat.add_assoc, Nat.add_left_comm] using he, by simpa using hpe⟩
      · rintro ⟨j, hj, e, he, hpe⟩
        cases j with
        | zero =>
          left
          simp only [List.get] at hpe he
          rw [hp] at hpe
          cases hpe
          simpa using he
        | succ j =>
          right
          exact ⟨j, by simpa using Nat.lt_of_succ_lt_succ hj, e,
            by simpa [Nat.add_comm, Nat.add_assoc, Nat.add_left_comm] using he, by simpa using hpe⟩

theorem processB_rownum_lb (rows : List RawRow) : ∀ i entry,
    entry ∈ (processRowsB i rows).2 → i ≤ entry.rownum := by
  intro i entry hmem
  rw [processB_mem_invalid rows i entry] at hmem
  obtain ⟨j, hj, e, rfl, -⟩ := hmem
  simp

theorem processB_rownum_mono (rows : List RawRow) : ∀ i,
    ((processRowsB i rows).2).Pairwise (fun a b => a.rownum < b.rownum) := by
  induction rows with
  | nil => intro i; simp [processRowsB]
  | cons raw rest ih =>
    intro i
    rw [processRowsB]
    cases hp : parse_budget_row (normRowB raw) with
    | ok p => simpa using ih (i + 1)
    | error e =>
      simp only
      refine List.Pairwise.cons ?_ (ih (i + 1))
      intro b hb
      have := processB_rownum_lb rest (i + 1) b hb
      simp only
      omega

theorem except_toOption_ok {e a : Type} (x : a) : (Except.ok x : Except e a).toOption = some x := rfl

theorem except_toOption_err {e a : Type} (u : e) : (Except.error u : Except e a).toOption = none := rfl

theorem processT_ok_spec (rows : List RawRow) : ∀ i v inv,
    processRowsT i rows = .ok (v, inv) →
    v = rows.filterMap (fun raw => match normRowT raw with
        | .ok row => (parse_tx_row row).toOption
        | .error _ => none) ∧
    v.length + inv.length = rows.length ∧
    (∀ entry : InvalidRow, entry ∈ inv ↔ ∃ j, ∃ hj : j < rows.length, ∃ row e,
        normRowT (rows.get ⟨j, hj⟩) = .ok row ∧
        parse_tx_row row = .error e ∧ entry = ⟨i + j, e, row⟩) := by
  induction rows with
  | nil =>
    intro i v inv h
    rw [processRowsT] at h
    have hpair := Except.ok.inj h
    have hv := congrArg Prod.fst hpair
    have hinv := congrArg Prod.snd hpair
    simp only at hv hinv
    subst hv
    subst hinv
    refine ⟨rfl, rfl, ?_⟩
    intro entry
    simp
  | cons raw rest ih =>
    intro i v inv h
    rw [processRowsT] at h
    cases hn : normRowT raw with
    | error u => simp only [hn] at h; exact Except.noConfusion h
    | ok row =>
      simp only [hn] at h
      cases hrest : processRowsT (i + 1) rest with
      | error u => simp only [hrest] at h; exact Except.noConfusion h
      | ok res =>
        simp only [hrest] at h
        obtain ⟨v', inv'⟩ := res
        obtain ⟨hv', hlen', hmem'⟩ := ih (i + 1) v' inv' hrest
        cases hp : parse_tx_row row with
        | ok p =>
          simp only [hp] at h
          have hpair := Except.ok.inj h
          have hv := congrArg Prod.fst hpair
          have hinv := congrArg Prod.snd hpair
          simp only at hv hinv
          subst hv
          subst hinv
          refine ⟨?_, ?_, ?_⟩
          · simp only [List.filterMap_cons, hn, hp, except_toOption_ok, except_toOption_err]
            rw [hv']
          · simp only [List.length_cons]
            omega
          · intro entry
            rw [hmem' entry]
            constructor
            · rintro ⟨j, hj, row', e, hn', hp', he⟩
              exact ⟨j + 1, by simpa using Nat.succ_lt_succ hj, row', e, by simpa using hn',
                hp', by simpa [Nat.add_comm, Nat.add_assoc, Nat.add_left_comm] using he⟩
            · rintro ⟨j, hj, row', e, hn', hp', he⟩
              cases j with
              | zero =>
                exfalso
                simp only [List.get] at hn'
                rw [hn] at hn'
                have := Except.ok.inj hn'
                subst this
                rw [hp] at hp'
                exact Except.noConfusion hp'
              | succ j =>
                exact ⟨j, by simpa using Nat.lt_of_succ_lt_succ hj, row', e, by simpa using hn',
                  hp', by simpa [Nat.add_comm, Nat.add_assoc, Nat.add_left_comm] using he⟩
        | error e0 =>
          simp only [hp] at h
          have hpair := Except.ok.inj h
          have hv := congrArg Prod.fst hpair
          have hinv := congrArg Prod.snd hpair
          simp only at hv hinv
          subst hv
          subst hinv
          refine ⟨?_, ?_, ?_⟩
          · simp only [List.filterMap_cons, hn, hp, except_toOption_ok, except_toOption_err]
            rw [hv']
          · simp only [List.length_cons]
            omega
          · intro entry
            simp only [List.mem_cons]
            rw [hmem' entry]
            constructor
            · rintro (rfl | ⟨j, hj, row', e, hn', hp', he⟩)
              · exact ⟨0, by simp, row, e0, by simpa using hn, hp, by simp⟩
              · exact ⟨j + 1, by simpa using Nat.succ_lt_succ hj, row', e, by simpa using hn',
                  hp', by simpa [Nat.add_comm, Nat.add_assoc, Nat.add_left_comm] using he⟩
            · rintro ⟨j, hj, row', e, hn', hp', he⟩
              cases j with
              | zero =>
                left
                simp only [List.get] at hn'
                rw [hn] at hn'
                have hre := Except.ok.inj hn'
                subst hre
                rw [hp] at hp'
                have hee := Except.error.inj hp'
                subst hee
                simpa using he
              | succ j =>
                right
                exact ⟨j, by simpa using Nat.lt_of_succ_lt_succ hj, row', e, by simpa using hn',
                  hp', by simpa [Nat.add_comm, Nat.add_assoc, Nat.add_left_comm] using he⟩

theorem processT_rownum_mono (rows : List RawRow) : ∀ i v inv,
    processRowsT i rows = .ok (v, inv) → inv.Pairwise (fun a b => a.rownum < b.rownum) := by
  induction rows with
  | nil =>
    intro i v inv h
    rw [processRowsT] at h
    have h2 := congrArg Prod.snd (Except.ok.inj h)
    simp only at h2
    subst h2
    exact List.Pairwise.nil
  | cons raw rest ih =>
    intro i v inv h
    rw [processRowsT] at h
    cases hn : normRowT raw with
    | error u => simp only [hn] at h; exact Except.noConfusion h
    | ok row =>
      simp only [hn] at h
      cases hrest : processRowsT (i + 1) rest with
      | error u => simp only [hrest] at h; exact Except.noConfusion h
      | ok res =>
        simp only [hrest] at h
        obtain ⟨v', inv'⟩ := res
        have hmem := (processT_ok_spec rest (i + 1) v' inv' hrest).2.2
        cases hp : parse_tx_row row with
        | ok p =>
          simp only [hp] at h
          have h2 := congrArg Prod.snd (Except.ok.inj h)
          simp only at h2
          subst h2
          exact ih (i + 1) v' inv' hrest
        | error e0 =>
          simp only [hp] at h
          have h2 := congrArg Prod.snd (Except.ok.inj h)
          simp only at h2
          subst h2
          refine List.Pairwise.cons ?_ (ih (i + 1) v' inv' hrest)
          intro b hb
          obtain ⟨j, hj, row', e, -, -, he⟩ := (hmem b).mp hb
          subst he
          simp only
          omega

/-! ### Recurring-field inversion for the budget row parser -/

theorem WEEKDAY_MAP_bounds : ∀ s w, WEEKDAY_MAP s = some w → 0 ≤ w ∧ w ≤ 6 := by
  intro s w h
  rw [WEEKDAY_MAP] at h
  repeat' split at h
  all_goals first
    | exact Option.noConfusion h
    | (injection h with h; omega)

theorem parseRecurringAnchor_spec (u : RepeatUnit) (row : RowMap) (x : Option Int × Option Int)
    (h : parseRecurringAnchor u row = .ok x) :
    (u = .weekly → ∃ w, x = (some w, none) ∧ 0 ≤ w ∧ w ≤ 6) ∧
    (u ≠ .weekly → ∃ dv, x = (none, some dv)) := by
  cases u with
  | weekly =>
    refine ⟨fun _ => ?_, fun hne => absurd rfl hne⟩
    rw [parseRecurringAnchor] at h
    by_cases hw : pyLower (pyStrip (rowGet row "on_weekday")) = ""
    · rw [if_pos hw] at h
      exact Except.noConfusion h
    · rw [if_neg hw] at h
      cases hm : WEEKDAY_MAP (pyLower (pyStrip (rowGet row "on_weekday"))) with
      | none => simp only [hm] at h; exact Except.noConfusion h
      | some w =>
        simp only [hm] at h
        obtain ⟨hb1, hb2⟩ := WEEKDAY_MAP_bounds _ _ hm
        exact ⟨w, (Except.ok.inj h).symm, hb1, hb2⟩
  | monthly =>
    refine ⟨fun hw => ?_, fun _ => ?_⟩
    · exact absurd hw (by decide)
    simp only [parseRecurringAnchor] at h
    by_cases hd : pyStrip (rowGet row "on_day") = ""
    · rw [if_pos hd] at h
      exact Except.noConfusion h
    · rw [if_neg hd] at h
      cases hm : pyInt (pyStrip (rowGet row "on_day")) with
      | none => simp only [hm] at h; exact Except.noConfusion h
      | some dv =>
        simp only [hm] at h
        exact ⟨dv, (Except.ok.inj h).symm⟩
  | yearly =>
    refine ⟨fun hw => ?_, fun _ => ?_⟩
    · exact absurd hw (by decide)
    simp only [parseRecurringAnchor] at h
    by_cases hd : pyStrip (rowGet row "on_day") = ""
    · rw [if_pos hd] at h
      exact Except.noConfusion h
    · rw [if_neg hd] at h
      cases hm : pyInt (pyStrip (rowGet row "on_day")) with
      | none => simp only [hm] at h; exact Except.noConfusion h
      | some dv =>
        simp only [hm] at h
        exact ⟨dv, (Except.ok.inj h).symm⟩

set_option maxHeartbeats 1000000 in
theorem parse_budget_row_recurring (row : RowMap) (p : ParsedBudgetRow)
    (h : parse_budget_row row = .ok p) (hrec : p.is_recurring = true) :
    (∃ k, p.repeat_interval = some k) ∧
    (p.repeat_unit = some .weekly →
      ∃ w, p.weekday = some w ∧ 0 ≤ w ∧ w ≤ 6 ∧ p.day_of_month = none) ∧
    ((p.repeat_unit = some .monthly ∨ p.repeat_unit = some .yearly) →
      (∃ dmo, p.day_of_month = some dmo) ∧ p.weekday = none) := by
  rw [parse_budget_row] at h
  by_cases h1 : pyLower (rowGet row "type") ≠ "income" ∧ pyLower (rowGet row "type") ≠ "expense"
  · rw [if_pos h1] at h
    exact Except.noConfusion h
  · rw [if_neg h1] at h
    by_cases h2 : pyStrip (rowGet row "category") = ""
    · rw [if_pos h2] at h
      exact Except.noConfusion h
    · rw [if_neg h2] at h
      cases h3 : euros_to_cents (some (rowGet row "amount")) with
      | moneyError msg => simp only [h3] at h; exact Except.noConfusion h
      | uncaughtInvalidOp => simp only [h3] at h; exact Except.noConfusion h
      | ok amount =>
        simp only [h3] at h
        cases h4 : SCHEDULE_MAP (pyLower (pyStrip (rowGet row "schedule"))) with
        | none => simp only [h4] at h; exact Except.noConfusion h
        | some sched =>
          cases sched with
          | oneTime =>
            simp only [h4] at h
            cases h5 : parse_date_field
                (rowGet (noteShift (pyStrip (rowGet row "note")) row).2 "date") with
            | error e => simp only [h5] at h; exact Except.noConfusion h
            | ok od =>
              cases od with
              | none => simp only [h5] at h; exact Except.noConfusion h
              | some d =>
                simp only [h5] at h
                cases Except.ok.inj h
                exact Bool.noConfusion hrec
          | recurring =>
            simp only [h4] at h
            by_cases h6 : pyStrip
                (rowGet (noteShift (pyStrip (rowGet row "note")) row).2 "repeat_every") = ""
            · rw [if_pos h6] at h
              exact Except.noConfusion h
            · rw [if_neg h6] at h
              cases h7 : pyInt (pyStrip
                  (rowGet (noteShift (pyStrip (rowGet row "note")) row).2 "repeat_every")) with
              | none => simp only [h7] at h; exact Except.noConfusion h
              | some ri =>
                simp only [h7] at h
                cases h8 : REPEAT_UNIT_MAP (pyLower (pyStrip
                    (rowGet (noteShift (pyStrip (rowGet row "note")) row).2 "repeat_unit"))) with
                | none => simp only [h8] at h; exact Except.noConfusion h
                | some ru =>
                  simp only [h8] at h
                  cases h9 : parseRecurringAnchor ru
                      (noteShift (pyStrip (rowGet row "note")) row).2 with
                  | error e => simp only [h9] at h; exact Except.noConfusion h
                  | ok x =>
                    obtain ⟨wd, dmo⟩ := x
                    simp only [h9] at h
                    cases h10 : parse_date_field
                        (rowGet (noteShift (pyStrip (rowGet row "note")) row).2 "start_date") with
                    | error e => simp only [h10] at h; exact Except.noConfusion h
                    | ok sd =>
                      simp only [h10] at h
                      cases h11 : parse_date_field
                          (rowGet (noteShift (pyStrip (rowGet row "note")) row).2 "end_date") with
                      | error e => simp only [h11] at h; exact Except.noConfusion h
                      | ok ed =>
                        simp only [h11] at h
                        cases Except.ok.inj h
                        have hspec := parseRecurringAnchor_spec ru
                          (noteShift (pyStrip (rowGet row "note")) row).2 (wd, dmo) h9
                        refine ⟨⟨ri, rfl⟩, ?_, ?_⟩
                        · intro hu
                          have hru : ru = .weekly := Option.some.inj hu
                          obtain ⟨w, hx, hb1, hb2⟩ := hspec.1 hru
                          exact ⟨w, congrArg Prod.fst hx, hb1, hb2, congrArg Prod.snd hx⟩
                        · intro hu
                          have hne : ru ≠ .weekly := by
                            rcases hu with hu | hu
                            · rw [Option.some.inj hu]
                              decide
                            · rw [Option.some.inj hu]
                              decide
                          obtain ⟨dv, hx⟩ := hspec.2 hne
                          exact ⟨⟨dv, congrArg Prod.snd hx⟩, congrArg Prod.fst hx⟩

theorem validate_budget_recurring (b : Budget) (hv : validate_budget b = .ok ())
    (hrec : b.is_recurring = true) :
    (∀ k, b.repeat_interval = some k → 1 ≤ k) ∧
    ((b.repeat_unit = some .monthly ∨ b.repeat_unit = some .yearly) →
      ∀ dmo, b.day_of_month = some dmo → 1 ≤ dmo ∧ dmo ≤ 31) := by
  rw [validate_budget] at hv
  rw [if_pos hrec] at hv
  repeat
    first
    | exact Except.noConfusion hv
    | split at hv
  all_goals refine ⟨fun k hk => ?_, fun hmy dmo hdmo => ?_⟩
  all_goals simp_all
  all_goals split at hv
  all_goals first
    | exact Except.noConfusion hv
    | omega

/-- C6 counterexample: the budget importer accepts a recurring row whose
`repeat_every` is `0` (not a positive integer) and whose `on_day` is `99`
(outside 1..31) into `valid_rows`; the parser checks only that these fields
are integers, not their ranges. -/
theorem C6_counterexample :
    processRowsB 2 [bgZeroIntervalRow] = ([bgZeroIntervalParsed], []) ∧
    bgZeroIntervalParsed.is_recurring = true ∧
    bgZeroIntervalParsed.repeat_interval = some 0 ∧
    bgZeroIntervalParsed.repeat_unit = some .monthly ∧
    bgZeroIntervalParsed.day_of_month = some 99 := by decide

/-- C6 (amended): every row the budget CSV parser accepts as recurring has an
integer `repeat_interval` present, and an anchor matching its unit — a
weekday in 0..6 for weekly rows, an integer `day_of_month` for monthly or
yearly rows — but the parser itself enforces no positivity on the interval
and no 1..31 range on the day; those ranges are enforced only by
`validate_budget`, which runs at apply time, not at parse time. -/
theorem C6_recurring_fields :
    (∀ (row : RowMap) (p : ParsedBudgetRow), parse_budget_row row = .ok p →
      p.is_recurring = true →
      (∃ k, p.repeat_interval = some k) ∧
      (p.repeat_unit = some .weekly →
        ∃ w, p.weekday = some w ∧ 0 ≤ w ∧ w ≤ 6 ∧ p.day_of_month = none) ∧
      ((p.repeat_unit = some .monthly ∨ p.repeat_unit = some .yearly) →
        (∃ dmo, p.day_of_month = some dmo) ∧ p.weekday = none)) ∧
    (∀ b : Budget, validate_budget b = .ok () → b.is_recurring = true →
      (∀ k, b.repeat_interval = some k → 1 ≤ k) ∧
      ((b.repeat_unit = some .monthly ∨ b.repeat_unit = some .yearly) →
        ∀ dmo, b.day_of_month = some dmo → 1 ≤ dmo ∧ dmo ≤ 31)) :=
  ⟨parse_budget_row_recurring, validate_budget_recurring⟩

/-- C6 witness: the parser guarantee evaluated on the zero-interval row, and
the validator guarantee evaluated on a stored monthly budget with day 15. -/
theorem C6_recurring_fields_witness :
    parse_budget_row (normRowB bgZeroIntervalRow) = .ok bgZeroIntervalParsed ∧
    (∃ k, bgZeroIntervalParsed.repeat_interval = some k) ∧
    (1 ≤ (15 : Int) ∧ (15 : Int) ≤ 31) :=
  ⟨by decide,
   (C6_recurring_fields.1 (normRowB bgZeroIntervalRow) bgZeroIntervalParsed
      (by decide) rfl).1,
   (C6_recurring_fields.2 exRecurringBudget (by decide) rfl).2 (Or.inl rfl) 15 rfl⟩

theorem dictLookup_dictInsert {α : Type} (m : List (String × α)) (k : String) (v : α) :
    dictLookup (dictInsert m k v) k = some v := by
  induction m with
  | nil => simp [dictInsert, dictLookup]
  | cons kv rest ih =>
    obtain ⟨k', v'⟩ := kv
    by_cases hk : k' = k
    · subst hk
      simp [dictInsert, dictLookup]
    · simp [dictInsert, dictLookup, hk, ih]

/-- C7: with an empty extracted note the importer inspects `end_date` first
and falls back to `start_date`; a value that fails ISO date parsing becomes
the note and its field is cleared, a cleared field later parses as an unset
date, and a value that the shift installs as the note never parses as a
valid date (a nonempty note is kept as is). -/
theorem C7_note_shift :
    (∀ (note : String) (row : RowMap), note ≠ "" → noteShift note row = (note, row)) ∧
    (∀ row : RowMap, pyStrip (rowGet row "end_date") ≠ "" →
      isoParse (pyStrip (rowGet row "end_date")) = none →
      noteShift "" row = (pyStrip (rowGet row "end_date"), dictInsert row "end_date" "")) ∧
    (∀ row : RowMap, (pyStrip (rowGet row "end_date") = "" ∨
        isoParse (pyStrip (rowGet row "end_date")) ≠ none) →
      pyStrip (rowGet row "start_date") ≠ "" →
      isoParse (pyStrip (rowGet row "start_date")) = none →
      noteShift "" row = (pyStrip (rowGet row "start_date"), dictInsert row "start_date" "")) ∧
    (∀ (note : String) (row : RowMap),
      (noteShift note row).1 = note ∨ isoParse ((noteShift note row).1) = none) ∧
    (∀ (row : RowMap) (k : String),
      parse_date_field (rowGet (dictInsert row k "") k) = .ok none) := by
  refine ⟨?_, ?_, ?_, ?_, ?_⟩
  · intro note row h
    rw [noteShift, if_pos h]
  · intro row h1 h2
    rw [noteShift, if_neg (by simp), if_pos ⟨h1, h2⟩]
  · intro row h h1 h2
    have hn2 : ¬(pyStrip (rowGet row "end_date") ≠ "" ∧
        isoParse (pyStrip (rowGet row "end_date")) = none) := by
      rcases h with h | h
      · exact fun hc => hc.1 h
      · exact fun hc => h hc.2
    rw [noteShift, if_neg (by simp), if_neg hn2, if_pos ⟨h1, h2⟩]
  · intro note row
    rw [noteShift]
    by_cases hn : note ≠ ""
    · rw [if_pos hn]
      exact Or.inl rfl
    · rw [if_neg hn]
      by_cases h1 : pyStrip (rowGet row "end_date") ≠ "" ∧
          isoParse (pyStrip (rowGet row "end_date")) = none
      · rw [if_pos h1]
        exact Or.inr h1.2
      · rw [if_neg h1]
        by_cases h2 : pyStrip (rowGet row "start_date") ≠ "" ∧
            isoParse (pyStrip (rowGet row "start_date")) = none
        · rw [if_pos h2]
          exact Or.inr h2.2
        · rw [if_neg h2]
          exact Or.inl rfl
  · intro row k
    have : rowGet (dictInsert row k "") k = "" := by
      rw [rowGet, dictLookup_dictInsert]
      rfl
    rw [this]
    decide

/-- C7 witness: a garbled `end_date` becomes the note with the field cleared;
a valid `end_date` is skipped and the garbled `start_date` becomes the note. -/
theorem C7_note_shift_witness :
    noteShift "" [("end_date", "pay quarterly")]
      = ("pay quarterly", [("end_date", "")]) ∧
    noteShift "" [("end_date", "2025-01-31"), ("start_date", "see note")]
      = ("see note", [("end_date", "2025-01-31"), ("start_date", "")]) :=
  ⟨C7_note_shift.2.1 [("end_date", "pay quarterly")] (by decide) (by decide),
   C7_note_shift.2.2.1 [("end_date", "2025-01-31"), ("start_date", "see note")]
     (Or.inr (by decide)) (by decide) (by decide)⟩

theorem parse_csv_budget_good_header (fieldnames : List String) (rows : List RawRow)
    (hne : fieldnames ≠ [])
    (hall : (["amount", "category", "currency", "type"]).all
      (fun r => ((fieldnames.map pyStrip).map pyLower).contains r) = true) :
    parse_csv_budget fieldnames rows = processRowsB 2 rows := by
  rw [parse_csv_budget, if_neg hne]
  show (if (["amount", "category", "currency", "type"]).filter
      (fun r => ¬ ((fieldnames.map pyStrip).map pyLower).contains r) ≠ [] then _
    else processRowsB 2 rows) = processRowsB 2 rows
  have hmiss : (["amount", "category", "currency", "type"]).filter
      (fun r => ¬ ((fieldnames.map pyStrip).map pyLower).contains r) = [] := by
    rw [List.filter_eq_nil_iff]
    intro a ha
    simp only [List.all_eq_true] at hall
    have := hall a ha
    simpa using this
  rw [hmiss]
  simp

theorem parse_csv_tx_good_header (fieldnames : List String) (rows : List RawRow)
    (hne : fieldnames ≠ [])
    (hall : (["amount", "category", "currency", "date", "description", "type"]).all
      (fun r => ((fieldnames.map pyStrip).map pyLower).contains r) = true) :
    parse_csv_tx fieldnames rows = processRowsT 2 rows := by
  rw [parse_csv_tx, if_neg hne]
  show (if (["amount", "category", "currency", "date", "description", "type"]).filter
      (fun r => ¬ ((fieldnames.map pyStrip).map pyLower).contains r) ≠ [] then _
    else processRowsT 2 rows) = processRowsT 2 rows
  have hmiss : (["amount", "category", "currency", "date", "description", "type"]).filter
      (fun r => ¬ ((fieldnames.map pyStrip).map pyLower).contains r) = [] := by
    rw [List.filter_eq_nil_iff]
    intro a ha
    simp only [List.all_eq_true] at hall
    have := hall a ha
    simpa using this
  rw [hmiss]
  simp

/-- C5: with a well-formed header the budget importer reduces to its row
loop, which converts every failing data row into exactly one `InvalidRow`
(row numbers start at 2 and are strictly increasing, so each failing row
yields one entry) while keeping the length balance, and the transactions
row loop does the same whenever its normalization step does not raise; but
the transactions importer aborts the whole parse on a single data row with
one extra field, because its normalization runs outside the per-row `try:`
and calls `.strip()` on the extras list. -/
theorem C5_invalid_rows :
    (∀ (fieldnames : List String) (rows : List RawRow), fieldnames ≠ [] →
      (["amount", "category", "currency", "type"]).all
        (fun r => ((fieldnames.map pyStrip).map pyLower).contains r) = true →
      parse_csv_budget fieldnames rows = processRowsB 2 rows) ∧
    (∀ rows : List RawRow,
      (processRowsB 2 rows).1.length + (processRowsB 2 rows).2.length = rows.length) ∧
    (∀ (rows : List RawRow) (entry : InvalidRow),
      entry ∈ (processRowsB 2 rows).2 ↔ ∃ j, ∃ hj : j < rows.length, ∃ e,
        entry = ⟨2 + j, e, normRowB (rows.get ⟨j, hj⟩)⟩ ∧
        parse_budget_row (normRowB (rows.get ⟨j, hj⟩)) = .error e) ∧
    (∀ rows : List RawRow,
      ((processRowsB 2 rows).2).Pairwise (fun a b => a.rownum < b.rownum)) ∧
    (∀ (rows : List RawRow) (v : List ParsedTxRow) (inv : List InvalidRow),
      processRowsT 2 rows = .ok (v, inv) →
      v.length + inv.length = rows.length ∧
      inv.Pairwise (fun a b => a.rownum < b.rownum) ∧
      (∀ entry : InvalidRow, entry ∈ inv ↔ ∃ j, ∃ hj : j < rows.length, ∃ row e,
        normRowT (rows.get ⟨j, hj⟩) = .ok row ∧
        parse_tx_row row = .error e ∧ entry = ⟨2 + j, e, row⟩)) ∧
    parse_csv_tx txExtraFieldHeader [txExtraFieldRow] = .error () := by
  refine ⟨?_, fun rows => processB_len rows 2,
    fun rows entry => processB_mem_invalid rows 2 entry,
    fun rows => processB_rownum_mono rows 2, ?_, by decide⟩
  · exact parse_csv_budget_good_header
  · intro rows v inv h
    obtain ⟨h1, h2, h3⟩ := processT_ok_spec rows 2 v inv h
    exact ⟨h2, processT_rownum_mono rows 2 v inv h, h3⟩

/-- C5 witness: a header-complete upload with one row missing `category`
produces exactly the row-2 `InvalidRow` for it. -/
theorem C5_invalid_rows_witness :
    parse_csv_budget bgHeader [bgMissingCategoryRow]
      = processRowsB 2 [bgMissingCategoryRow] ∧
    (⟨2, "category is required.", normRowB bgMissingCategoryRow⟩ : InvalidRow)
      ∈ (processRowsB 2 [bgMissingCategoryRow]).2 :=
  ⟨C5_invalid_rows.1 bgHeader [bgMissingCategoryRow] (by decide) (by decide),
   (C5_invalid_rows.2.2.1 [bgMissingCategoryRow]
      ⟨2, "category is required.", normRowB bgMissingCategoryRow⟩).mpr
     ⟨0, by decide, "category is required.", by decide, by decide⟩⟩

/-- C9 counterexample: on an empty upload the CSV reader finds no header, the
parser emits the synthetic row-0 entry, and `0 + 1 ≤ 0` fails — the claimed
bound does not cover the degenerate cases it purports to include. -/
theorem C9_counterexample :
    parse_csv_budget [] [] = ([], [⟨0, "CSV has no header row.", []⟩]) ∧
    ¬ ((parse_csv_budget [] []).1.length + (parse_csv_budget [] []).2.length
        ≤ ([] : List RawRow).length) := by decide

/-- C9 (amended): with a well-formed header the budget importer returns
exactly one entry per data row (`len(valid) + len(invalid) = rows`, so the
claimed `≤` holds there); a missing or incomplete header instead yields zero
valid rows and one synthetic invalid entry at row 0, which exceeds the bound
whenever the upload has fewer data rows than one; the transactions importer
keeps the same balance whenever it returns at all. -/
theorem C9_row_conservation :
    (∀ (fieldnames : List String) (rows : List RawRow), fieldnames ≠ [] →
      (["amount", "category", "currency", "type"]).all
        (fun r => ((fieldnames.map pyStrip).map pyLower).contains r) = true →
      (parse_csv_budget fieldnames rows).1.length
        + (parse_csv_budget fieldnames rows).2.length = rows.length) ∧
    (∀ rows : List RawRow, parse_csv_budget [] rows
        = ([], [⟨0, "CSV has no header row.", []⟩])) ∧
    (∀ (fieldnames : List String) (rows : List RawRow), fieldnames ≠ [] →
      (["amount", "category", "currency", "type"]).all
        (fun r => ((fieldnames.map pyStrip).map pyLower).contains r) = false →
      ∃ msg, parse_csv_budget fieldnames rows = ([], [⟨0, msg, []⟩])) ∧
    (∀ (fieldnames : List String) (rows : List RawRow)
        (v : List ParsedTxRow) (inv : List InvalidRow), fieldnames ≠ [] →
      (["amount", "category", "currency", "date", "description", "type"]).all
        (fun r => ((fieldnames.map pyStrip).map pyLower).contains r) = true →
      parse_csv_tx fieldnames rows = .ok (v, inv) →
      v.length + inv.length = rows.length) := by
  refine ⟨?_, fun rows => rfl, ?_, ?_⟩
  · intro fieldnames rows hne hall
    rw [parse_csv_budget_good_header fieldnames rows hne hall]
    exact processB_len rows 2
  · intro fieldnames rows hne hall
    refine ⟨"Missing required columns: " ++ String.intercalate ", "
      ((["amount", "category", "currency", "type"]).filter
        (fun r => ¬ ((fieldnames.map pyStrip).map pyLower).contains r)), ?_⟩
    rw [parse_csv_budget, if_neg hne]
    show (if (["amount", "category", "currency", "type"]).filter
        (fun r => ¬ ((fieldnames.map pyStrip).map pyLower).contains r) ≠ [] then _
      else _) = _
    have hex : ∃ x ∈ ["amount", "category", "currency", "type"],
        ¬ (((fieldnames.map pyStrip).map pyLower).contains x = true) := by
      by_contra hc
      push_neg at hc
      have hall2 : (["amount", "category", "currency", "type"]).all
          (fun r => ((fieldnames.map pyStrip).map pyLower).contains r) = true :=
        List.all_eq_true.mpr hc
      rw [hall] at hall2
      exact Bool.noConfusion hall2
    obtain ⟨x, hx, hxc⟩ := hex
    have hmem : x ∈ (["amount", "category", "currency", "type"]).filter
        (fun r => ¬ ((fieldnames.map pyStrip).map pyLower).contains r) :=
      List.mem_filter.mpr ⟨hx, by simpa using hxc⟩
    rw [if_pos (List.ne_nil_of_mem hmem)]
  · intro fieldnames rows v inv hne hall h
    rw [parse_csv_tx_good_header fieldnames rows hne hall] at h
    exact (processT_ok_spec rows 2 v inv h).2.1

/-- C9 witness: a two-row header-complete budget upload conserves the row
count, and an empty transactions upload with a complete header balances at
zero. -/
theorem C9_row_conservation_witness :
    (parse_csv_budget bgHeader [bgZeroIntervalRow, bgMissingCategoryRow]).1.length
      + (parse_csv_budget bgHeader [bgZeroIntervalRow, bgMissingCategoryRow]).2.length
      = 2 ∧
    ([] : List ParsedTxRow).length + ([] : List InvalidRow).length
      = ([] : List RawRow).length :=
  ⟨C9_row_conservation.1 bgHeader [bgZeroIntervalRow, bgMissingCategoryRow]
     (by decide) (by decide),
   C9_row_conservation.2.2.2 txExtraFieldHeader [] [] [] (by decide) (by decide)
     (by decide)⟩

/-! ### Weekly occurrence counting -/

theorem countBy7_closed : ∀ f c e, e + 1 - c ≤ f →
    countBy7Aux f c e = if c ≤ e then (e - c) / 7 + 1 else 0 := by
  intro f
  induction f with
  | zero =>
    intro c e hf
    rw [countBy7Aux, if_neg (by omega)]
  | succ f ih =>
    intro c e hf
    rw [countBy7Aux]
    by_cases hce : c ≤ e
    · rw [if_pos hce, if_pos hce, ih (c + 7) e (by omega)]
      by_cases hce7 : c + 7 ≤ e
      · rw [if_pos hce7]
        have h7 : e - c = (e - (c + 7)) + 7 := by omega
        rw [h7, Nat.add_div_right _ (by norm_num)]
        omega
      · rw [if_neg hce7, Nat.div_eq_of_lt (by omega)]
    · rw [if_neg hce, if_neg hce]

theorem firstWd_spec : ∀ f s e w, e + 2 - s ≤ f →
    s ≤ firstWdAux f s e w ∧
    (∀ d, s ≤ d → d < firstWdAux f s e w → ¬ ((wdOfOrd d : Int) = w)) ∧
    (firstWdAux f s e w ≤ e → (wdOfOrd (firstWdAux f s e w) : Int) = w) := by
  intro f
  induction f with
  | zero =>
    intro s e w hf
    rw [firstWdAux]
    exact ⟨le_refl s, fun d h1 h2 => absurd (lt_of_le_of_lt h1 h2) (lt_irrefl s),
      fun hse => absurd hse (by omega)⟩
  | succ f ih =>
    intro s e w hf
    rw [firstWdAux]
    by_cases hc : (wdOfOrd s : Int) ≠ w ∧ s ≤ e
    · rw [if_pos hc]
      obtain ⟨ih1, ih2, ih3⟩ := ih (s + 1) e w (by omega)
      refine ⟨by omega, ?_, ih3⟩
      intro d h1 h2
      rcases Nat.eq_or_lt_of_le h1 with h1 | h1
      · rw [← h1]
        exact hc.1
      · exact ih2 d h1 h2
    · rw [if_neg hc]
      refine ⟨le_refl s, fun d h1 h2 => absurd (lt_of_le_of_lt h1 h2) (lt_irrefl s), ?_⟩
      intro hse
      by_contra hwd
      exact hc ⟨hwd, hse⟩

theorem filter_Icc_restrict (s c e : Nat) (P : Nat → Prop) [DecidablePred P]
    (hsc : s ≤ c) (hmin : ∀ d, s ≤ d → d < c → ¬ P d) :
    (Finset.Icc s e).filter P = (Finset.Icc c e).filter P := by
  ext d
  simp only [Finset.mem_filter, Finset.mem_Icc]
  constructor
  · rintro ⟨⟨h1, h2⟩, hp⟩
    refine ⟨⟨?_, h2⟩, hp⟩
    by_contra hlt
    exact hmin d h1 (by omega) hp
  · rintro ⟨⟨h1, h2⟩, hp⟩
    exact ⟨⟨by omega, h2⟩, hp⟩

theorem filter_mod7_card (c e : Nat) (hce : c ≤ e) :
    ((Finset.Icc c e).filter (fun d => d % 7 = c % 7)).card = (e - c) / 7 + 1 := by
  have himg : (Finset.Icc c e).filter (fun d => d % 7 = c % 7)
      = (Finset.range ((e - c) / 7 + 1)).image (fun i => c + 7 * i) := by
    ext d
    simp only [Finset.mem_filter, Finset.mem_Icc, Finset.mem_image, Finset.mem_range]
    constructor
    · rintro ⟨⟨hcd, hde⟩, hmod⟩
      have h7 : 7 ∣ d - c := (Nat.modEq_iff_dvd' hcd).mp hmod.symm
      obtain ⟨q, hq⟩ := h7
      refine ⟨q, ?_, by omega⟩
      have hd : q ≤ (e - c) / 7 := Nat.le_div_iff_mul_le (by norm_num) |>.mpr (by omega)
      omega
    · rintro ⟨i, hi, rfl⟩
      have hmul : 7 * ((e - c) / 7) ≤ e - c := by
        have := Nat.div_mul_le_self (e - c) 7
        omega
      refine ⟨⟨by omega, by omega⟩, ?_⟩
      exact Nat.add_mul_mod_self_left c 7 i
  rw [himg, Finset.card_image_of_injective _ (fun a b hab => by omega), Finset.card_range]

theorem weeklyOccurrences_card (s e : Nat) (w : Int) :
    weeklyOccurrences s e w
      = ((Finset.Icc s e).filter (fun d => (wdOfOrd d : Int) = w)).card := by
  rw [weeklyOccurrences]
  obtain ⟨h1, h2, h3⟩ := firstWd_spec (e + 2 - s) s e w (le_refl _)
  set c := firstWdAux (e + 2 - s) s e w with hc
  rw [countBy7_closed (e + 1 - c) c e (le_refl _), filter_Icc_restrict s c e _ h1 h2]
  by_cases hce : c ≤ e
  · rw [if_pos hce]
    have hw : (wdOfOrd c : Int) = w := h3 hce
    have hcong : (Finset.Icc c e).filter (fun d => (wdOfOrd d : Int) = w)
        = (Finset.Icc c e).filter (fun d => d % 7 = c % 7) := by
      apply Finset.filter_congr
      intro d _
      rw [← hw]
      constructor
      · intro hh
        have hh2 : wdOfOrd d = wdOfOrd c := by exact_mod_cast hh
        rw [wdOfOrd, wdOfOrd] at hh2
        omega
      · intro hh
        have hh2 : wdOfOrd d = wdOfOrd c := by
          rw [wdOfOrd, wdOfOrd]
          omega
        exact_mod_cast hh2
    rw [hcong, filter_mod7_card c e hce]
  · rw [if_neg hce, Finset.Icc_eq_empty (by omega), Finset.filter_empty, Finset.card_empty]

/-- C8: for a weekly recurring budget with weekday `w` and interval `k ≥ 1`
whose start/end window does not exclude the month, the planned contribution
over the inclusive month window is `ceil(n / k)` times the per-occurrence
amount, where `n` counts the days of the window falling on weekday `w`. -/
theorem C8_weekly_ceil (b : Budget) (ms me : PyDate) (w k : Int)
    (hrec : b.is_recurring = true) (hu : b.repeat_unit = some .weekly)
    (hw : b.weekday = some w) (hk : b.repeat_interval = some k) (hk1 : 1 ≤ k)
    (hsd : ∀ sd, b.start_date = some sd → ¬ me.toOrd < sd.toOrd)
    (hed : ∀ ed, b.end_date = some ed → ¬ ed.toOrd < ms.toOrd) :
    budget_planned_amount_for_month b ms me
      = b.amount_cents *
        ((((Finset.Icc ms.toOrd me.toOrd).filter
            (fun d => (wdOfOrd d : Int) = w)).card + k.toNat - 1) / k.toNat : Nat) := by
  rw [budget_planned_amount_for_month, hrec]
  rw [if_neg (by simp)]
  have hs : (match b.start_date with
      | some sd => decide (me.toOrd < sd.toOrd)
      | none => false) = false := by
    cases hsdc : b.start_date with
    | none => rfl
    | some sd => simp [hsd sd hsdc]
  have he : (match b.end_date with
      | some ed => decide (ed.toOrd < ms.toOrd)
      | none => false) = false := by
    cases hedc : b.end_date with
    | none => rfl
    | some ed => simp [hed ed hedc]
  rw [hs, if_neg (by simp), he, if_neg (by simp)]
  simp only [hu, hw]
  have hbi : budgetInterval b = k := by
    rw [budgetInterval, hk]
    show (if k = 0 then 1 else k) = k
    rw [if_neg (by omega)]
  rw [hbi, weeklyOccurrences_card ms.toOrd me.toOrd w]
  rcases eq_or_lt_of_le hk1 with hk1' | hk1'
  · rw [← hk1', if_neg (by omega)]
    simp
  · rw [if_pos hk1']
    have hkt : 1 ≤ k.toNat := by omega
    have harg : ((((Finset.Icc ms.toOrd me.toOrd).filter
        (fun d => (wdOfOrd d : Int) = w)).card : Int)) + (k - 1)
        = ((((Finset.Icc ms.toOrd me.toOrd).filter
            (fun d => (wdOfOrd d : Int) = w)).card + k.toNat - 1 : Nat) : Int) := by
      rw [Nat.cast_sub (by omega)]
      push_cast
      omega
    have hkk : k = (k.toNat : Int) := (Int.toNat_of_nonneg (by omega)).symm
    have hdiv : ∀ m : Nat, Int.fdiv (m : Int) k = ((m / k.toNat : Nat) : Int) := by
      intro m
      conv_lhs => rw [hkk]
      rw [Int.fdiv_eq_div (Int.natCast_nonneg _) (Int.natCast_nonneg _), Int.ofNat_div]
    rw [harg, hdiv]

/-- C8 witness: March 2025 contains five Mondays; the Monday-anchored budget
of 100 cents contributes 500 at interval 1 and 300 (= ceil(5/2) × 100) at
interval 2. -/
theorem C8_weekly_ceil_witness :
    budget_planned_amount_for_month bMonWeekly ⟨2025, 3, 1⟩ ⟨2025, 3, 31⟩ = 500 ∧
    budget_planned_amount_for_month bMonBiweekly ⟨2025, 3, 1⟩ ⟨2025, 3, 31⟩ = 300 := by
  constructor
  · rw [C8_weekly_ceil bMonWeekly ⟨2025, 3, 1⟩ ⟨2025, 3, 31⟩ 0 1 rfl rfl rfl rfl (by decide)
      (fun sd hsd => Option.noConfusion hsd) (fun ed hed => Option.noConfusion hed)]
    decide
  · rw [C8_weekly_ceil bMonBiweekly ⟨2025, 3, 1⟩ ⟨2025, 3, 31⟩ 0 2 rfl rfl rfl rfl (by decide)
      (fun sd hsd => Option.noConfusion hsd) (fun ed hed => Option.noConfusion hed)]
    decide

/-- C10: a yearly recurring budget whose `start_date` is `None` (and whose
`end_date` does not exclude the queried month) contributes its full
`amount_cents` to every queried month window: without a `start_date` the
yearly branch performs no month-of-year or interval check, and
`day_of_month` is never read. -/
theorem C10_yearly_no_start (b : Budget) (ms me : PyDate)
    (hrec : b.is_recurring = true) (hu : b.repeat_unit = some .yearly)
    (hsd : b.start_date = none)
    (hed : ∀ ed, b.end_date = some ed → ¬ ed.toOrd < ms.toOrd) :
    budget_planned_amount_for_month b ms me = b.amount_cents := by
  rw [budget_planned_amount_for_month, hrec]
  rw [if_neg (by simp)]
  rw [hsd]
  rw [if_neg (by simp)]
  have he : (match b.end_date with
      | some ed => decide (ed.toOrd < ms.toOrd)
      | none => false) = false := by
    cases hedc : b.end_date with
    | none => rfl
    | some ed => simp [hed ed hedc]
  rw [he, if_neg (by simp)]
  simp only [hu]

/-- C10 witness: the yearly no-start budget pays its full 2400 cents in two
different months of two different years, interval 3 and day 15
notwithstanding. -/
theorem C10_yearly_no_start_witness :
    budget_planned_amount_for_month bYearlyNoStart ⟨2024, 7, 1⟩ ⟨2024, 7, 31⟩ = 2400 ∧
    budget_planned_amount_for_month bYearlyNoStart ⟨2025, 2, 1⟩ ⟨2025, 2, 28⟩ = 2400 := by
  constructor
  · rw [C10_yearly_no_start bYearlyNoStart ⟨2024, 7, 1⟩ ⟨2024, 7, 31⟩ rfl rfl rfl
      (fun ed hed => Option.noConfusion hed)]
    rfl
  · rw [C10_yearly_no_start bYearlyNoStart ⟨2025, 2, 1⟩ ⟨2025, 2, 28⟩ rfl rfl rfl
      (fun ed hed => Option.noConfusion hed)]
    rfl

/-! ### Batch store and signature-table lemmas -/

theorem dictLookup_dictRemove {α : Type} (m : List (String × α)) (k : String) :
    dictLookup (dictRemove m k) k = none := by
  induction m with
  | nil => rfl
  | cons kv rest ih =>
    obtain ⟨a, v⟩ := kv
    by_cases ha : a = k
    · subst ha
      simpa [dictRemove, dictLookup] using ih
    · simpa [dictRemove, dictLookup, ha] using ih

theorem sigLookup_sigAppend (m : List (BudgetSig × List Nat)) (k : BudgetSig) (i : Nat)
    (k' : BudgetSig) :
    (sigLookup (sigAppend m k i) k').getD []
      = if k' = k then (sigLookup m k').getD [] ++ [i] else (sigLookup m k').getD [] := by
  induction m with
  | nil =>
    by_cases h : k' = k
    · subst h
      simp [sigAppend, sigLookup]
    · rw [if_neg h]
      show (if k = k' then some [i] else none).getD [] = _
      rw [if_neg (fun hh => h hh.symm)]
      rfl
  | cons kv rest ih =>
    obtain ⟨a, l⟩ := kv
    rw [sigAppend]
    by_cases ha : a = k
    · rw [if_pos ha]
      subst ha
      rw [sigLookup, sigLookup]
      by_cases haa : a = k'
      · rw [if_pos haa, if_pos haa, if_pos haa.symm]
        rfl
      · rw [if_neg haa, if_neg haa, if_neg (fun hh => haa hh.symm)]
    · rw [if_neg ha]
      rw [sigLookup, sigLookup]
      by_cases haa : a = k'
      · rw [if_pos haa, if_pos haa, if_neg (fun hh => ha (haa.trans hh))]
      · rw [if_neg haa, if_neg haa, ih]

theorem buildSigs_mem (db : DB) (uid : Nat) (b : Budget)
    (hb : b ∈ db.budgets) (hu : b.user_id = uid) :
    b.id ∈ (sigLookup (buildExistingSigs db uid) (sig_from_existing db uid b)).getD [] := by
  have H : ∀ (bs : List Budget) (m : List (BudgetSig × List Nat)) (s : BudgetSig) (i : Nat),
      (i ∈ (sigLookup m s).getD [] ∨ ∃ b0 ∈ bs, sig_from_existing db uid b0 = s ∧ b0.id = i) →
      i ∈ (sigLookup (bs.foldl
        (fun m b0 => sigAppend m (sig_from_existing db uid b0) b0.id) m) s).getD [] := by
    intro bs
    induction bs with
    | nil =>
      intro m s i h
      rcases h with h | ⟨b0, hb0, -, -⟩
      · exact h
      · exact absurd hb0 (List.not_mem_nil b0)
    | cons b0 rest ih =>
      intro m s i h
      rw [List.foldl_cons]
      apply ih
      rcases h with h | ⟨b1, hb1, hs, hi⟩
      · left
        rw [sigLookup_sigAppend]
        by_cases hss : s = sig_from_existing db uid b0
        · rw [if_pos hss]
          exact List.mem_append_left _ h
        · rw [if_neg hss]
          exact h
      · rcases List.mem_cons.mp hb1 with rfl | hb2
        · left
          rw [sigLookup_sigAppend, if_pos hs.symm]
          subst hi
          exact List.mem_append_right _ (List.mem_singleton.mpr rfl)
        · right
          exact ⟨b1, hb2, hs, hi⟩
  rw [buildExistingSigs]
  apply H
  right
  exact ⟨b, List.mem_filter.mpr ⟨hb, by simp [hu]⟩, rfl, rfl⟩

theorem idsToDelete_mem (batch : ImportBatch) (r : ParsedBudgetRow) (i : Nat)
    (hr : r ∈ batch.valid_rows)
    (hi : i ∈ (sigLookup batch.existing_sigs (sig_from_row r)).getD []) :
    i ∈ idsToDelete batch := by
  rw [idsToDelete]
  have H : ∀ (rows : List ParsedBudgetRow) (acc : List Nat),
      (i ∈ acc ∨ ∃ r0 ∈ rows, i ∈ (sigLookup batch.existing_sigs (sig_from_row r0)).getD []) →
      i ∈ rows.foldl (fun acc r0 =>
        match sigLookup batch.existing_sigs (sig_from_row r0) with
        | some l => acc ++ l
        | none => acc) acc := by
    intro rows
    induction rows with
    | nil =>
      intro acc h
      rcases h with h | ⟨r0, hr0, -⟩
      · exact h
      · exact absurd hr0 (List.not_mem_nil r0)
    | cons r0 rest ih =>
      intro acc h
      rw [List.foldl_cons]
      apply ih
      rcases h with h | ⟨r1, hr1, hi1⟩
      · left
        cases hl : sigLookup batch.existing_sigs (sig_from_row r0) with
        | none => simp only [hl]; exact h
        | some l => simp only [hl]; exact List.mem_append_left _ h
      · rcases List.mem_cons.mp hr1 with rfl | hr2
        · left
          cases hl : sigLookup batch.existing_sigs (sig_from_row r1) with
          | none =>
            rw [hl] at hi1
            exact absurd hi1 (List.not_mem_nil i)
          | some l =>
            rw [hl] at hi1
            simp only [hl]
            exact List.mem_append_right _ hi1
        · right
          exact ⟨r1, hr2, hi1⟩
  exact H batch.valid_rows [] (Or.inr ⟨r, hr, hi⟩)

theorem ensure_category_inv (db : DB) (uid : Nat) (n : String) :
    (ensure_category db uid n).1.budgets = db.budgets ∧
    (ensure_category db uid n).1.nextBud = db.nextBud ∧
    (ensure_category db uid n).1.subcategories = db.subcategories := by
  rw [ensure_category]
  cases db.categories.find? (fun c => c.user_id = uid ∧ c.name = n) with
  | none => exact ⟨rfl, rfl, rfl⟩
  | some c => exact ⟨rfl, rfl, rfl⟩

theorem ensure_subcategory_inv (db : DB) (uid cid : Nat) (n : String) :
    (ensure_subcategory db uid cid n).1.budgets = db.budgets ∧
    (ensure_subcategory db uid cid n).1.nextBud = db.nextBud := by
  rw [ensure_subcategory]
  cases db.subcategories.find? (fun sc =>
      sc.user_id = uid ∧ sc.category_id = cid ∧ sc.name = n) with
  | none => exact ⟨rfl, rfl⟩
  | some sc => exact ⟨rfl, rfl⟩

theorem insertRow_spec (db : DB) (uid : Nat) (r : ParsedBudgetRow) :
    (∃ cid sid, validate_budget (rowToBudget r uid db.nextBud cid sid) = .ok () ∧
      (insertRow db uid r).budgets = db.budgets ++ [rowToBudget r uid db.nextBud cid sid]) ∨
    ((insertRow db uid r).budgets = db.budgets ∧
      ∃ cid sid msg, validate_budget (rowToBudget r uid db.nextBud cid sid) = .error msg) := by
  rw [insertRow]
  cases hec : ensure_category db uid r.category with
  | mk db1 cid =>
    have hinv := ensure_category_inv db uid r.category
    rw [hec] at hinv
    obtain ⟨hb1, hn1, -⟩ := hinv
    simp only [hec]
    cases hrs : r.subcategory with
    | none =>
      simp only [hrs]
      cases hv : validate_budget (rowToBudget r uid db1.nextBud cid none) with
      | ok u =>
        cases u
        simp only [hv]
        left
        refine ⟨cid, none, ?_, ?_⟩
        · rw [← hn1]
          exact hv
        · rw [hb1, hn1]
      | error msg =>
        simp only [hv]
        right
        refine ⟨hb1, cid, none, msg, ?_⟩
        rw [← hn1]
        exact hv
    | some sc =>
      simp only [hrs]
      by_cases hsc : sc = ""
      · rw [if_pos hsc]
        cases hv : validate_budget (rowToBudget r uid db1.nextBud cid none) with
        | ok u =>
          cases u
          simp only [hv]
          left
          refine ⟨cid, none, ?_, ?_⟩
          · rw [← hn1]
            exact hv
          · rw [hb1, hn1]
        | error msg =>
          simp only [hv]
          right
          refine ⟨hb1, cid, none, msg, ?_⟩
          rw [← hn1]
          exact hv
      · rw [if_neg hsc]
        cases hesc : ensure_subcategory db1 uid cid sc with
        | mk db2 sid =>
          have hinv2 := ensure_subcategory_inv db1 uid cid sc
          rw [hesc] at hinv2
          obtain ⟨hb2, hn2⟩ := hinv2
          simp only [hesc]
          cases hv : validate_budget (rowToBudget r uid db2.nextBud cid (some sid)) with
          | ok u =>
            cases u
            simp only [hv]
            left
            refine ⟨cid, some sid, ?_, ?_⟩
            · rw [← hn1, ← hn2]
              exact hv
            · rw [hb2, hb1, hn2, hn1]
          | error msg =>
            simp only [hv]
            right
            refine ⟨hb2.trans hb1, cid, some sid, msg, ?_⟩
            rw [← hn1, ← hn2]
            exact hv

theorem apply_replace_eq (store : List (String × ImportBatch)) (db : DB) (uid : Nat)
    (bid : String) (batch : ImportBatch) (hbid : bid ≠ "")
    (hlook : dictLookup store bid = some batch) (huid : batch.uid = uid) :
    import_budget_apply store db uid (some bid) "replace"
      = (insertRows (deleteMatching db uid batch) uid batch.valid_rows,
         dictRemove store bid, .applied) := by
  simp only [import_budget_apply, hlook]
  rw [if_neg hbid, if_neg (by simp [huid]), if_neg (by decide), if_pos trivial]

/-- The batch inserted by the third demo upload (recomputed signatures of the
two stored duplicates; row 0 is flagged as a duplicate). -/
def demoBatch3 : ImportBatch :=
  { uid := 1, valid_rows := [bgGoodParsed], invalid_rows := [],
    duplicates_idx := [0], existing_sigs := buildExistingSigs dbDemo2 1 }

/-- The budget stored by the first demo apply. -/
def demoBudget1 : Budget := rowToBudget bgGoodParsed 1 1 1 none

/-- C1 counterexample: applying "replace" on a batch whose only valid row is
the zero-interval row reports success but inserts nothing — the insert loop
silently drops rows that `validate_budget` rejects (while still creating
their categories), so "inserts every valid row" fails. -/
theorem C1_counterexample :
    (import_budget_apply [("b1", zeroBatch)] dbEmpty 1 (some "b1") "replace").1.budgets
      = [] ∧
    (import_budget_apply [("b1", zeroBatch)] dbEmpty 1 (some "b1") "replace").2.2
      = .applied ∧
    zeroBatch.valid_rows.length = 1 ∧
    (import_budget_apply [("b1", zeroBatch)] dbEmpty 1 (some "b1") "replace").1.categories
      = [⟨1, 1, "Rent"⟩] := by decide

/-- C1 (amended): the "replace" action deletes every stored record of the
user whose signature matches any valid row's signature (all copies, not just
one) and then runs the insert loop, which inserts exactly those valid rows
whose constructed `Budget` passes `validate_budget` (rows failing validation
are silently skipped); for well-formed rows the keep-then-replace scenario
holds — after "keep" created 2 copies of a signature, "replace" with a CSV
carrying that signature once leaves exactly 1. -/
theorem C1_replace_apply :
    (∀ (store : List (String × ImportBatch)) (db : DB) (uid : Nat)
        (bid : String) (batch : ImportBatch), bid ≠ "" →
      dictLookup store bid = some batch → batch.uid = uid →
      import_budget_apply store db uid (some bid) "replace"
        = (insertRows (deleteMatching db uid batch) uid batch.valid_rows,
           dictRemove store bid, .applied)) ∧
    (∀ (db : DB) (uid : Nat) (batch : ImportBatch) (b : Budget),
      batch.existing_sigs = buildExistingSigs db uid →
      b ∈ db.budgets → b.user_id = uid →
      (∃ r ∈ batch.valid_rows, sig_from_row r = sig_from_existing db uid b) →
      b ∉ (deleteMatching db uid batch).budgets) ∧
    (∀ (db : DB) (uid : Nat) (r : ParsedBudgetRow),
      (∃ cid sid, validate_budget (rowToBudget r uid db.nextBud cid sid) = .ok () ∧
        (insertRow db uid r).budgets = db.budgets ++ [rowToBudget r uid db.nextBud cid sid]) ∨
      ((insertRow db uid r).budgets = db.budgets ∧
        ∃ cid sid msg, validate_budget (rowToBudget r uid db.nextBud cid sid) = .error msg)) ∧
    dbDemo2.budgets.countP
      (fun b => sig_from_existing dbDemo2 1 b = sig_from_row bgGoodParsed) = 2 ∧
    dbDemo3.budgets.countP
      (fun b => sig_from_existing dbDemo3 1 b = sig_from_row bgGoodParsed) = 1 := by
  refine ⟨apply_replace_eq, ?_, insertRow_spec, by decide, by decide⟩
  intro db uid batch b hsig hb hu hex hcontra
  obtain ⟨r, hr, hsigeq⟩ := hex
  rw [deleteMatching] at hcontra
  have hnp := of_decide_eq_true (List.mem_filter.mp hcontra).2
  apply hnp
  refine ⟨hu, ?_⟩
  have hidmem : b.id ∈ idsToDelete batch := by
    apply idsToDelete_mem batch r b.id hr
    rw [hsig, hsigeq]
    exact buildSigs_mem db uid b hb hu
  simpa using hidmem

/-- C1 witness: the amended replace semantics evaluated on the demo store —
the third upload's batch applies as delete-then-insert, and the first stored
duplicate is removed by the delete pass. -/
theorem C1_replace_apply_witness :
    import_budget_apply (import_budget_upload dbDemo2 1 "u3" [bgGoodParsed] [] [])
        dbDemo2 1 (some "u3") "replace"
      = (insertRows (deleteMatching dbDemo2 1 demoBatch3) 1 [bgGoodParsed],
         [], .applied) ∧
    demoBudget1 ∉ (deleteMatching dbDemo2 1 demoBatch3).budgets :=
  ⟨C1_replace_apply.1 (import_budget_upload dbDemo2 1 "u3" [bgGoodParsed] [] [])
     dbDemo2 1 "u3" demoBatch3 (by decide) (by decide) rfl,
   C1_replace_apply.2.1 dbDemo2 1 demoBatch3 demoBudget1 rfl (by decide) rfl
     ⟨bgGoodParsed, by decide, by decide⟩⟩

/-- C2: an apply whose batch id is absent from the session, unknown to the
store, or owned by another user changes neither the stored records nor the
batch store and reports not-found; and after a successful apply removed the
batch, a second apply with the same id is a not-found no-op rather than a
double application. -/
theorem C2_batch_not_found :
    (∀ (store : List (String × ImportBatch)) (db : DB) (uid : Nat) (action : String),
      import_budget_apply store db uid none action = (db, store, .notFound)) ∧
    (∀ (store : List (String × ImportBatch)) (db : DB) (uid : Nat) (bid : String)
        (action : String), bid ≠ "" → dictLookup store bid = none →
      import_budget_apply store db uid (some bid) action = (db, store, .notFound)) ∧
    (∀ (store : List (String × ImportBatch)) (db : DB) (uid : Nat) (bid : String)
        (action : String) (batch : ImportBatch), bid ≠ "" →
      dictLookup store bid = some batch → batch.uid ≠ uid →
      import_budget_apply store db uid (some bid) action = (db, store, .notFound)) ∧
    (∀ (store : List (String × ImportBatch)) (db : DB) (uid : Nat) (bid : String)
        (action : String) (db1 : DB) (store1 : List (String × ImportBatch)),
      import_budget_apply store db uid (some bid) action = (db1, store1, .applied) →
      import_budget_apply store1 db1 uid (some bid) action = (db1, store1, .notFound)) := by
  refine ⟨fun store db uid action => rfl, ?_, ?_, ?_⟩
  · intro store db uid bid action hbid hlook
    simp only [import_budget_apply, hlook]
    rw [if_neg hbid]
  · intro store db uid bid action batch hbid hlook huid
    simp only [import_budget_apply, hlook]
    rw [if_neg hbid, if_pos huid]
  · intro store db uid bid action db1 store1 happly
    simp only [import_budget_apply] at happly ⊢
    by_cases hbid : bid = ""
    · rw [if_pos hbid] at happly
      exact ApplyOutcome.noConfusion
        (congrArg (fun t : DB × List (String × ImportBatch) × ApplyOutcome => t.2.2) happly)
    · rw [if_neg hbid] at happly ⊢
      cases hlook : dictLookup store bid with
      | none =>
        simp only [hlook] at happly
        exact ApplyOutcome.noConfusion
          (congrArg (fun t : DB × List (String × ImportBatch) × ApplyOutcome => t.2.2) happly)
      | some batch =>
        simp only [hlook] at happly
        by_cases huid : batch.uid ≠ uid
        · rw [if_pos huid] at happly
          exact ApplyOutcome.noConfusion
            (congrArg (fun t : DB × List (String × ImportBatch) × ApplyOutcome => t.2.2) happly)
        · rw [if_neg huid] at happly
          by_cases hact : action ≠ "keep" ∧ action ≠ "replace"
          · rw [if_pos hact] at happly
            exact ApplyOutcome.noConfusion
              (congrArg (fun t : DB × List (String × ImportBatch) × ApplyOutcome => t.2.2) happly)
          · rw [if_neg hact] at happly
            have hst : store1 = dictRemove store bid :=
              (congrArg (fun t : DB × List (String × ImportBatch) × ApplyOutcome =>
                t.2.1) happly).symm
            subst hst
            simp only [dictLookup_dictRemove]

/-- C2 witness: an unknown batch id is a no-op, and re-applying the first
demo batch after its successful apply reports not-found without touching the
stored state. -/
theorem C2_batch_not_found_witness :
    import_budget_apply [] dbEmpty 1 (some "x") "keep" = (dbEmpty, [], .notFound) ∧
    import_budget_apply [] dbDemo1 1 (some "u1") "keep" = (dbDemo1, [], .notFound) :=
  ⟨C2_batch_not_found.2.1 [] dbEmpty 1 "x" "keep" (by decide) rfl,
   C2_batch_not_found.2.2.2 (import_budget_upload dbEmpty 1 "u1" [bgGoodParsed] [] [])
     dbEmpty 1 "u1" "keep" dbDemo1 [] (by decide)⟩
